import Mathlib

/-!
Verification of the pytsetmc-api ingestion/normalization pipeline.

The definitions below are a shallow embedding of the Python sources
(`src/pytsetmc_api/utils.py`, `services/base_service.py`,
`services/price_service.py`, `services/trading_service.py`,
`services/market_service.py`).  Python strings are modelled as Lean
`String`, Python ints as `Int`/`Nat`, floats as `ℚ` (the numeric texts the
pipeline handles are decimal literals), raised exceptions as `Except PyErr`.
The external `jdatetime` dependency (Jalali calendar) is embedded from its
well-known arithmetic algorithm (`jdatetime/jalali.py`), which the package
delegates to for every calendar conversion.
-/

namespace PyTsetmc

/-- View of `Except` as a sum, to decide equality. -/
def exceptToSum {ε α : Type} : Except ε α → ε ⊕ α
  | .error e => .inl e
  | .ok a => .inr a

instance {ε α : Type} [DecidableEq ε] [DecidableEq α] :
    DecidableEq (Except ε α) := fun a b =>
  decidable_of_iff (exceptToSum a = exceptToSum b)
    (by cases a <;> cases b <;> simp [exceptToSum])

/-! ## Python string primitives -/

/-- Characters stripped by Python `str.strip()` (ASCII whitespace). -/
def pyWhitespace : List Char := [' ', '\t', '\n', '\r', '\x0b', '\x0c']

/-- `str.strip()` on the character list. -/
def pyStripChars (cs : List Char) : List Char :=
  ((cs.dropWhile (pyWhitespace.contains ·)).reverse.dropWhile
      (pyWhitespace.contains ·)).reverse

/-- Python `str.strip()`. -/
def pyStrip (s : String) : String := ⟨pyStripChars s.data⟩

/-- Helper for `str.split(sep)` with a one-character separator:
Python keeps empty fields and `"".split(sep) == [""]`. -/
def splitCharAux (c : Char) : List Char → List Char → List (List Char)
  | [], acc => [acc.reverse]
  | a :: as, acc =>
    if a = c then acc.reverse :: splitCharAux c as []
    else splitCharAux c as (a :: acc)

/-- Python `s.split(c)` for a single-character separator. -/
def pySplitChar (s : String) (c : Char) : List String :=
  (splitCharAux c s.data []).map fun cs => ⟨cs⟩

/-- Digits of a decimal numeral to a `Nat` (`none` when empty or non-digit). -/
def natOfDigits (cs : List Char) : Option Nat :=
  if cs = [] then none
  else if cs.all Char.isDigit then
    some (cs.foldl (fun a c => a * 10 + (c.toNat - 48)) 0)
  else none

/-- Python `int(str)`: surrounding whitespace, an optional sign, then decimal
digits (the underscore-separator extension of CPython is not modelled; no
call site produces it). -/
def pyParseInt (s : String) : Option Int :=
  match pyStripChars s.data with
  | '+' :: rest => (natOfDigits rest).map Int.ofNat
  | '-' :: rest => (natOfDigits rest).map fun n => -(n : Int)
  | rest => (natOfDigits rest).map Int.ofNat

/-- Python `float(str)` on the decimal fragment the upstream feeds use:
optional sign, digits with at most one decimal point (exponent and
inf/nan spellings are not modelled; no upstream field uses them). -/
def pyParseFloat (s : String) : Option ℚ :=
  let cs := pyStripChars s.data
  let signed : ℚ × List Char :=
    match cs with
    | '+' :: rest => (1, rest)
    | '-' :: rest => (-1, rest)
    | rest => (1, rest)
  match splitCharAux '.' signed.2 [] with
  | [ip] =>
    match natOfDigits ip with
    | some n => some (signed.1 * (n : ℚ))
    | none => none
  | [ip, fp] =>
    if ip = [] ∧ fp = [] then none
    else
      let ipn : Option Nat := if ip = [] then some 0 else natOfDigits ip
      let fpn : Option Nat := if fp = [] then some 0 else natOfDigits fp
      match ipn, fpn with
      | some i, some f =>
        some (signed.1 * ((i : ℚ) + (f : ℚ) / ((10 : ℚ) ^ fp.length)))
      | _, _ => none
  | _ => none

/-- ASCII lowering, Python `str.lower()` on the ASCII range. -/
def pyLower (s : String) : String :=
  ⟨s.data.map fun c =>
    if 'A' ≤ c ∧ c ≤ 'Z' then Char.ofNat (c.toNat + 32) else c⟩

/-- Python `needle in hay` substring containment. -/
def listContainsSub : List Char → List Char → Bool
  | hay, needle =>
    if needle.isPrefixOf hay then true
    else
      match hay with
      | [] => false
      | _ :: t => listContainsSub t needle

/-- Python `sub in s` for strings. -/
def pySubstr (hay needle : String) : Bool :=
  listContainsSub hay.data needle.data

/-- Python `s <= t` (lexicographic by code point). -/
def pyStrLeChars : List Char → List Char → Bool
  | [], _ => true
  | _ :: _, [] => false
  | a :: as, b :: bs =>
    if a.toNat < b.toNat then true
    else if b.toNat < a.toNat then false
    else pyStrLeChars as bs

/-- Python string `<=`. -/
def pyStrLe (s t : String) : Bool := pyStrLeChars s.data t.data

/-- Python `>` on lists of ints (lexicographic). -/
def pyListIntGt : List Int → List Int → Bool
  | [], _ => false
  | _ :: _, [] => true
  | a :: as, b :: bs =>
    if b < a then true
    else if a < b then false
    else pyListIntGt as bs

/-- `%0<width>d` formatting of a natural number. -/
def padZeros (width : Nat) (n : Nat) : String :=
  let s := toString n
  ⟨List.replicate (width - s.length) '0'⟩ ++ s

/-- Characters `s[a:b]` of a Python string slice. -/
def strSlice (s : String) (a b : Nat) : String :=
  ⟨(s.data.drop a).take (b - a)⟩

/-! ## Error taxonomy (`exceptions.py`)

The class hierarchy becomes one tagged type; each constructor keeps the
payload fields its class carries. -/

inductive PyErr where
  /-- Python builtin `ValueError`. -/
  | valueError (msg : String)
  /-- `TSETMCValidationError(message, field_name, field_value)`. -/
  | validationError (msg : String) (fieldName : Option String)
      (fieldValue : Option String)
  /-- `TSETMCAPIError(message, status_code)`. -/
  | apiError (msg : String) (statusCode : Option Int)
  /-- `TSETMCNetworkError(message)`. -/
  | networkError (msg : String)
  /-- `TSETMCNotFoundError(message)`. -/
  | notFoundError (msg : String)
  /-- `TSETMCDataError(message)`. -/
  | dataError (msg : String)
  /-- `TSETMCRateLimitError(message, retry_after)`. -/
  | rateLimitError (msg : String) (retryAfter : Option Int)
  deriving DecidableEq

/-- Whether the exception is a `TSETMCError` subclass (used by the
`except ... if isinstance(e, TSETMCError): raise` blocks). -/
def PyErr.isTSETMC : PyErr → Bool
  | .valueError _ => false
  | _ => true

/-- `str(e)` of the exceptions, as implemented by their `__str__`
(the optional `details` dict is never supplied at the modelled call
sites, so its suffix is omitted). -/
def PyErr.str : PyErr → String
  | .valueError m => m
  | .validationError m fn fv =>
    m ++
      (match fn with
       | some f =>
         " (Field: " ++ f ++
           (match fv with
            | some v => ", Value: " ++ v
            | none => "") ++ ")"
       | none => "")
  | .apiError m sc =>
    m ++ (match sc with
          | some c => " (Status: " ++ toString c ++ ")"
          | none => "")
  | .networkError m => m
  | .notFoundError m => m
  | .dataError m => m
  | .rateLimitError m ra =>
    m ++ (match ra with
          | some r => " (Retry after: " ++ toString r ++ "s)"
          | none => "")

/-! ## The `jdatetime` dependency (Jalali calendar)

Embedded from `jdatetime`: the `jalali.py` arithmetic converter and the
`date` constructor's validity checks (`MINYEAR = 1`, `MAXYEAR = 9377`,
leap year when `year % 33 ∈ {1,5,9,13,17,22,26,30}`, Esfand has 30 days
only in leap years). All quantities at the modelled call sites are
non-negative, so `Nat` arithmetic coincides with Python's. -/

/-- `jdatetime.date.isleap`. -/
def jIsLeap (y : Nat) : Bool :=
  [1, 5, 9, 13, 17, 22, 26, 30].contains (y % 33)

/-- `j_days_in_month` table of `jdatetime`. -/
def jDaysInMonth : List Nat := [31, 31, 31, 31, 31, 31, 30, 30, 30, 30, 30, 29]

/-- Validity check of the `jdatetime.date` constructor. -/
def jDateValid (y m d : Nat) : Bool :=
  1 ≤ y && y ≤ 9377 && 1 ≤ m && m ≤ 12 && 1 ≤ d &&
    (if m = 12 then (if jIsLeap y then d ≤ 30 else d ≤ 29)
     else d ≤ jDaysInMonth.getD (m - 1) 0)

/-- `jdatetime.date(y, m, d)` on Python ints: negative components are
invalid. -/
def jDateValidInt (y m d : Int) : Bool :=
  0 < y && 0 < m && 0 < d && jDateValid y.toNat m.toNat d.toNat

/-- Cumulative Gregorian days before month `m` (`g_d_m` in `jalali.py`). -/
def gdmTable : List Nat := [0, 31, 59, 90, 120, 151, 181, 212, 243, 273, 304, 334]

/-- The `sal_a` month-length table of `JalaliToGregorian`. -/
def salATable (kab : Nat) : List Nat :=
  [0, 31, kab, 31, 30, 31, 30, 31, 31, 30, 31, 30, 31]

/-- The `while gm < 13 and gd > sal_a[gm]` loop of `JalaliToGregorian`. -/
def gMonthLoop : List Nat → Nat → Nat → Nat × Nat
  | [], gm, gd => (gm, gd)
  | a :: rest, gm, gd =>
    if gd > a then gMonthLoop rest (gm + 1) (gd - a) else (gm, gd)

/-- `jalali.py` `JalaliToGregorian._jalali_to_gregorian`. -/
def jalali_to_gregorian (jy0 jm jd : Nat) : Nat × Nat × Nat :=
  let p : Nat × Nat := if jy0 > 979 then (1600, jy0 - 979) else (621, jy0)
  let gy0 := p.1
  let jy := p.2
  let days0 := if jm < 7 then (jm - 1) * 31 else (jm - 7) * 30 + 186
  let days1 := days0 + 365 * jy + (jy / 33) * 8 + ((jy % 33) + 3) / 4 + 78 + jd
  let gy1 := gy0 + 400 * (days1 / 146097)
  let days2 := days1 % 146097
  let q : Nat × Nat :=
    if days2 > 36524 then
      let d3 := days2 - 1
      let gy := gy1 + 100 * (d3 / 36524)
      let d4 := d3 % 36524
      (gy, if d4 ≥ 365 then d4 + 1 else d4)
    else (gy1, days2)
  let gy2 := q.1
  let days5 := q.2
  let gy3 := gy2 + 4 * (days5 / 1461)
  let days6 := days5 % 1461
  let r : Nat × Nat :=
    if days6 > 365 then (gy3 + (days6 - 1) / 365, (days6 - 1) % 365)
    else (gy3, days6)
  let gy4 := r.1
  let gd0 := r.2 + 1
  let kab := if (gy4 % 4 = 0 ∧ gy4 % 100 ≠ 0) ∨ gy4 % 400 = 0 then 29 else 28
  let mres := gMonthLoop (salATable kab) 0 gd0
  (gy4, mres.1, mres.2)

/-- `jalali.py` `GregorianToJalali._gregorian_to_jalali`. -/
def gregorian_to_jalali (gy0 gm gd : Nat) : Nat × Nat × Nat :=
  let p : Nat × Nat := if gy0 > 1600 then (979, gy0 - 1600) else (0, gy0 - 621)
  let jy0 := p.1
  let gy := p.2
  let gy2 := if gm > 2 then gy + 1 else gy
  let days1 :=
    365 * gy + (gy2 + 3) / 4 - (gy2 + 99) / 100 + (gy2 + 399) / 400 - 80 + gd +
      gdmTable.getD (gm - 1) 0
  let jy1 := jy0 + 33 * (days1 / 12053)
  let days2 := days1 % 12053
  let jy2 := jy1 + 4 * (days2 / 1461)
  let days3 := days2 % 1461
  let q : Nat × Nat :=
    if days3 > 365 then (jy2 + (days3 - 1) / 365, (days3 - 1) % 365)
    else (jy2, days3)
  let jy3 := q.1
  let days4 := q.2
  if days4 < 186 then (jy3, 1 + days4 / 31, 1 + days4 % 31)
  else (jy3, 7 + (days4 - 186) / 30, 1 + (days4 - 186) % 30)

/-- A Gregorian `datetime.date`. -/
structure GDate where
  year : Nat
  month : Nat
  day : Nat
  deriving DecidableEq

/-- Gregorian leap year (`datetime` rule). -/
def gIsLeap (y : Nat) : Bool := (y % 4 = 0 && y % 100 ≠ 0) || y % 400 = 0

/-- Gregorian month length. -/
def gDaysInMonth (y m : Nat) : Nat :=
  [31, if gIsLeap y then 29 else 28, 31, 30, 31, 30, 31, 31, 30, 31, 30, 31].getD
    (m - 1) 0

/-- Validity check of `datetime.date`. -/
def gDateValid (y m d : Nat) : Bool :=
  1 ≤ y && y ≤ 9999 && 1 ≤ m && m ≤ 12 && 1 ≤ d && d ≤ gDaysInMonth y m

/-- `YYYY-MM-DD` zero-padded formatting: `jdatetime.date.strftime("%Y-%m-%d")`
and `str(jdatetime.date)`. -/
def fmtJalali (y m d : Nat) : String :=
  padZeros 4 y ++ "-" ++ padZeros 2 m ++ "-" ++ padZeros 2 d

/-- `datetime.date.strftime("%Y%m%d")`. -/
def fmtG8 (g : GDate) : String :=
  padZeros 4 g.year ++ padZeros 2 g.month ++ padZeros 2 g.day

/-! ## `utils.py` -/

/-- `utils.validate_jalali_date(date_string, field_name)`: strips, replaces
`/` and `.` separators with `-`, requires three integer parts, checks the
year range [1300, 1450], validates via the `jdatetime.date` constructor and
returns the zero-padded `YYYY-MM-DD` normal form.  A `ValueError` from
`int(...)` or from `jdatetime.date(...)` is re-raised as
`TSETMCValidationError` with its message. -/
def validate_jalali_date (date_string : String) (field_name : String) :
    Except PyErr String :=
  if date_string = "" then
    .error (.validationError
      ("Invalid " ++ field_name ++ ": date string cannot be empty")
      (some field_name) (some date_string))
  else
    let ds0 := pyStrip date_string
    let ds := ⟨ds0.data.map fun c => if c = '/' ∨ c = '.' then '-' else c⟩
    let parts := pySplitChar ds '-'
    if parts.length ≠ 3 then
      .error (.validationError
        ("Invalid " ++ field_name ++ ": expected format YYYY-MM-DD, got " ++ ds)
        (some field_name) (some ds))
    else
      match pyParseInt (parts.getD 0 ""), pyParseInt (parts.getD 1 ""),
          pyParseInt (parts.getD 2 "") with
      | some y, some m, some d =>
        if y < 1300 ∨ y > 1450 then
          .error (.validationError
            ("Invalid " ++ field_name ++ ": year " ++ toString y ++
              " is out of reasonable range")
            (some field_name) (some ds))
        else if jDateValidInt y m d then
          .ok (fmtJalali y.toNat m.toNat d.toNat)
        else
          .error (.validationError
            ("Invalid " ++ field_name ++ ": day is out of range for month")
            (some field_name) (some ds))
      | _, _, _ =>
        .error (.validationError
          ("Invalid " ++ field_name ++ ": invalid literal for int")
          (some field_name) (some ds))

/-- `utils.convert_jalali_to_gregorian`: validates/normalizes first, then
converts through `jdatetime.date(...).togregorian()`. -/
def convert_jalali_to_gregorian (jalali_date_string : String) :
    Except PyErr GDate :=
  match validate_jalali_date jalali_date_string "date" with
  | .error e => .error e
  | .ok norm =>
    let parts := pySplitChar norm '-'
    match pyParseInt (parts.getD 0 ""), pyParseInt (parts.getD 1 ""),
        pyParseInt (parts.getD 2 "") with
    | some y, some m, some d =>
      let g := jalali_to_gregorian y.toNat m.toNat d.toNat
      .ok ⟨g.1, g.2.1, g.2.2⟩
    | _, _, _ =>
      .error (.validationError
        "Failed to convert Jalali date to Gregorian" (some "jalali_date")
        (some jalali_date_string))

/-- `utils.convert_gregorian_to_jalali`: `jdatetime.date.fromgregorian`
followed by zero-padded formatting. -/
def convert_gregorian_to_jalali (gregorian_date : GDate) : String :=
  let j := gregorian_to_jalali gregorian_date.year gregorian_date.month
    gregorian_date.day
  fmtJalali j.1 j.2.1 j.2.2

/-- `utils.safe_float_conversion` on a string value. -/
def safe_float_conversion (value : String) : Option ℚ :=
  if value = "" ∨ value = "N/A" then none
  else pyParseFloat value

/-- Truncation toward zero, Python `int(float)`. -/
def ratTrunc (q : ℚ) : Int := q.num.tdiv q.den

/-- `utils.safe_int_conversion` on a string value (goes through `float`
first, then truncates). -/
def safe_int_conversion (value : String) : Option Int :=
  if value = "" ∨ value = "N/A" then none
  else (pyParseFloat value).map ratTrunc

/-- Python `range(start, stop, step)` for a positive step. -/
def pyRangePos (start stop step : Nat) : List Nat :=
  if h : 0 < step ∧ start < stop then
    start :: pyRangePos (start + step) stop step
  else []
  termination_by stop - start
  decreasing_by omega

/-- `utils.chunk_list(data, chunk_size)`. -/
def chunk_list {α : Type} (data : List α) (chunk_size : Int) :
    Except PyErr (List (List α)) :=
  if chunk_size ≤ 0 then .error (.valueError "Chunk size must be positive")
  else
    .ok ((pyRangePos 0 data.length chunk_size.toNat).map fun i =>
      (data.drop i).take chunk_size.toNat)

/-- `utils.retry_on_failure` wrapper loop: `f` is the wrapped call at
attempt index `attempt`; `retryable e` models `isinstance(e, exceptions)`
for the decorator's `exceptions` tuple.  Returns the outcome together with
the number of attempts actually executed.  A non-retryable exception
propagates out of the loop uncaught. -/
def retryRun {α : Type} (retryable : PyErr → Bool)
    (f : Nat → Except PyErr α) : Nat → Nat → Except PyErr α × Nat
  | attempt, fuel =>
    match f attempt with
    | .ok a => (.ok a, attempt + 1)
    | .error e =>
      if retryable e then
        match fuel with
        | 0 => (.error e, attempt + 1)
        | fuel + 1 => retryRun retryable f (attempt + 1) fuel
      else (.error e, attempt + 1)

/-- `@retry_on_failure(max_retries, ...)` applied to an operation: runs up
to `max_retries + 1` attempts. -/
def retry_on_failure {α : Type} (max_retries : Nat) (retryable : PyErr → Bool)
    (f : Nat → Except PyErr α) : Except PyErr α × Nat :=
  retryRun retryable f 0 max_retries

/-! ## `services/base_service.py` -/

/-- Possible outcomes of one `session.request(...)` call: the transport
exceptions `requests` can raise, or an HTTP response with its status code
and reason phrase. -/
inductive HttpOutcome where
  | timeout
  | connectionError (msg : String)
  | requestError (msg : String)
  | response (status : Nat) (reason : String)
  deriving DecidableEq

/-- The body of one attempt of `BaseService._make_request` (inside the
retry decorator): maps the transport outcome to the raised error or the
response.  `response.ok` is `status < 400`; status 429 is checked first and
raises `TSETMCRateLimitError("Rate limit exceeded")` with its `retry_after`
constructor default (`None`). -/
def make_request_once (timeout : Nat) (o : HttpOutcome) :
    Except PyErr Nat :=
  match o with
  | .timeout =>
    .error (.networkError
      ("Request timeout after " ++ toString timeout ++ " seconds"))
  | .connectionError m => .error (.networkError ("Connection error: " ++ m))
  | .requestError m => .error (.networkError ("Request error: " ++ m))
  | .response status reason =>
    if status = 429 then .error (.rateLimitError "Rate limit exceeded" none)
    else if ¬ status < 400 then
      .error (.apiError ("HTTP " ++ toString status ++ ": " ++ reason)
        (some (Int.ofNat status)))
    else .ok status

/-- `BaseService._make_request`, i.e. the attempt body wrapped by
`@retry_on_failure(max_retries=3)`.  The decorator's `exceptions` argument
is left at its default `(Exception,)`, so every raised exception is
retryable.  `oracle` gives the transport outcome of each attempt. -/
def make_request (timeout : Nat) (oracle : Nat → HttpOutcome) :
    Except PyErr Nat × Nat :=
  retry_on_failure 3 (fun _ => true)
    (fun attempt => make_request_once timeout (oracle attempt))

/-- The `except TSETMCValidationError` reclassification block of
`BaseService._validate_date_range`. -/
def reclassify_date_error (start_date end_date : String) (e : PyErr) : PyErr :=
  if ¬ pySubstr (pyLower e.str) "start" then
    if pySubstr e.str start_date then
      .validationError ("Invalid start date format: " ++ start_date) none none
    else
      .validationError ("Invalid end date format: " ++ end_date) none none
  else e

/-- `BaseService._validate_date_range`: validates and normalizes both dates
with `validate_jalali_date`, then compares the integer parts of the
normalized strings as Python lists. -/
def validate_date_range (start_date end_date : String) :
    Except PyErr Unit :=
  match validate_jalali_date start_date "date" with
  | .error e => .error (reclassify_date_error start_date end_date e)
  | .ok normalized_start =>
    match validate_jalali_date end_date "date" with
    | .error e => .error (reclassify_date_error start_date end_date e)
    | .ok normalized_end =>
      let start_parts :=
        (pySplitChar normalized_start '-').map fun x => (pyParseInt x).getD 0
      let end_parts :=
        (pySplitChar normalized_end '-').map fun x => (pyParseInt x).getD 0
      if pyListIntGt start_parts end_parts then
        .error (.validationError "Start date must be before end date" none none)
      else .ok ()

/-- `BaseService._validate_stock_name`. -/
def validate_stock_name (stock : String) : Except PyErr Unit :=
  if stock = "" then
    .error (.validationError "Stock name must be a non-empty string" none none)
  else if pyStrip stock = "" then
    .error (.validationError "Stock name cannot be empty" none none)
  else .ok ()

/-! ## `services/price_service.py` -/

/-- One record produced by `PriceService._parse_price_response` (the dict
appended to `price_records`). -/
structure PriceRecord where
  date : String
  openPrice : Option ℚ
  high : Option ℚ
  low : Option ℚ
  close : Option ℚ
  last : Option ℚ
  count : Option Int
  volume : Option Int
  value : Option Int
  deriving DecidableEq

/-- The body of the `for line in lines` loop of
`PriceService._parse_price_response`: `none` when the line contributes no
record (blank line, fewer than 9 comma fields, date field not 8 characters,
or a `ValueError` from `int(...)`/`jdatetime.date(...)`, which the loop
catches and skips). -/
def parse_price_line (line : String) : Option PriceRecord :=
  if pyStrip line = "" then none
  else
    let parts := pySplitChar line ','
    if 9 ≤ parts.length then
      let date_str := parts.getD 0 ""
      if date_str.length = 8 then
        match pyParseInt (strSlice date_str 0 4), pyParseInt (strSlice date_str 4 6),
            pyParseInt (strSlice date_str 6 8) with
        | some year, some month, some day =>
          if jDateValidInt year month day then
            some
              { date := fmtJalali year.toNat month.toNat day.toNat
                openPrice := safe_float_conversion (parts.getD 8 "")
                high := safe_float_conversion (parts.getD 1 "")
                low := safe_float_conversion (parts.getD 2 "")
                close := safe_float_conversion (parts.getD 3 "")
                last := safe_float_conversion (parts.getD 4 "")
                count := safe_int_conversion (parts.getD 5 "")
                volume := safe_int_conversion (parts.getD 6 "")
                value := safe_int_conversion (parts.getD 7 "") }
          else none
        | _, _, _ => none
      else none
    else none

/-- `PriceService._parse_price_response`: strips the response text, splits
it into lines and keeps the records the per-line body produces.  Note that
the 8-digit date is passed to the `jdatetime.date` constructor directly
(`jdatetime.date(year, month, day)`), so its Gregorian digits are read as a
Jalali year/month/day; no calendar conversion happens here. -/
def parse_price_response (response_text : String) : List PriceRecord :=
  (pySplitChar (pyStrip response_text) '\n').filterMap parse_price_line

/-- `PriceService.get_history` for the default presentation options
(`adjust_price=show_weekday=double_date=False`, under which
`_format_price_data` returns its input unchanged): validates the stock
name, validates the date range unless `ignore_date`, and only then runs
the network-dependent body (web-id lookup, fetch, parse, filter), which is
abstracted as `fetch`.  A non-`TSETMCError` exception from the body is
wrapped as `TSETMCAPIError`. -/
def get_history (fetch : Unit → Except PyErr (List PriceRecord))
    (stock start_date end_date : String) (ignore_date : Bool) :
    Except PyErr (List PriceRecord) :=
  match validate_stock_name stock with
  | .error e => .error e
  | .ok _ =>
    match (if ignore_date then .ok () else validate_date_range start_date end_date :
        Except PyErr Unit) with
    | .error e => .error e
    | .ok _ =>
      match fetch () with
      | .error e =>
        if e.isTSETMC then .error e
        else .error (.apiError "Failed to get price history for the stock" none)
      | .ok price_data =>
        if price_data.isEmpty then
          .error (.dataError
            "No price data available for the stock in the specified period")
        else .ok price_data

/-! ## `services/trading_service.py` -/

/-- `datetime.strptime(s, "%Y%m%d")`: exactly eight digits making a valid
Gregorian date. -/
def strptimeG8 (s : String) : Option GDate :=
  if s.length = 8 ∧ s.data.all Char.isDigit then
    match pyParseInt (strSlice s 0 4), pyParseInt (strSlice s 4 6),
        pyParseInt (strSlice s 6 8) with
    | some y, some m, some d =>
      if gDateValid y.toNat m.toNat d.toNat then some ⟨y.toNat, m.toNat, d.toNat⟩
      else none
    | _, _, _ => none
  else none

/-- `jdatetime.datetime.strptime(j_date, "%Y-%m-%d")` followed by
`.togregorian().strftime("%Y%m%d")` (the first two lines of
`_fetch_day_trades_sync`): a dash-separated 4/1-2/1-2-digit Jalali date,
validated by the `jdatetime` constructor, converted and formatted as eight
digits. -/
def jalaliStrToGreg8 (j_date : String) : Option String :=
  match pySplitChar j_date '-' with
  | [ys, ms, ds] =>
    if ys.data.all Char.isDigit ∧ ys.length = 4 ∧
        ms.data.all Char.isDigit ∧ 1 ≤ ms.length ∧ ms.length ≤ 2 ∧
        ds.data.all Char.isDigit ∧ 1 ≤ ds.length ∧ ds.length ≤ 2 then
      match pyParseInt ys, pyParseInt ms, pyParseInt ds with
      | some y, some m, some d =>
        if jDateValidInt y m d then
          let g := jalali_to_gregorian y.toNat m.toNat d.toNat
          some (fmtG8 ⟨g.1, g.2.1, g.2.2⟩)
        else none
      | _, _, _ => none
    else none
  | _ => none

/-- One element of the upstream `tradeHistory` JSON array, reduced to the
four columns `df.iloc[:, 2:6]` selects (`Time`, `Volume`, `Price`,
`nTran`); `Volume` and `Price` are already coerced with
`pd.to_numeric(..., errors="coerce")`, so an unparsable value is `none`. -/
structure RawTrade where
  time : Nat
  volume : Option ℚ
  price : Option ℚ
  nTran : Int
  deriving DecidableEq

/-- One output row of `_fetch_day_trades_sync`
(`df[["J-Date", "Time", "Volume", "Price"]]`). -/
structure Trade where
  jdate : String
  time : String
  volume : ℚ
  price : ℚ
  deriving DecidableEq

/-- Stable insertion of a trade into a list sorted by `nTran`. -/
def insertByNTran (r : RawTrade) : List RawTrade → List RawTrade
  | [] => [r]
  | x :: xs =>
    if x.nTran ≤ r.nTran then x :: insertByNTran r xs else r :: x :: xs

/-- `df.sort_values(by="nTran")` (stable ascending sort). -/
def sortByNTran (l : List RawTrade) : List RawTrade :=
  l.foldr insertByNTran []

/-- `str(time).pad(6, "left", "0")` then `"HH:MM:SS"` formatting. -/
def formatTime (t : Nat) : String :=
  let s := padZeros 6 t
  strSlice s 0 2 ++ ":" ++ strSlice s 2 4 ++ ":" ++
    ⟨s.data.drop 4⟩

/-- `TradingService._fetch_day_trades_sync`: converts the Jalali day to the
eight-digit Gregorian key, performs the network call through `net` (keyed
by that eight-digit string; `net` returning an error models any exception
inside the `try`, including all retries of `_make_request` failing), sorts
by `nTran` and drops it, formats the time, tags the rows with the queried
Jalali date and drops rows whose volume or price did not coerce to a
number (`dropna`).  Every exception path returns an empty frame. -/
def fetch_day_trades_sync (net : String → Except PyErr (List RawTrade))
    (j_date : String) : List Trade :=
  match jalaliStrToGreg8 j_date with
  | none => []
  | some g_date =>
    match net g_date with
    | .error _ => []
    | .ok raws =>
      if raws = [] then []
      else
        (sortByNTran raws).filterMap fun r =>
          match r.volume, r.price with
          | some v, some p => some ⟨j_date, formatTime r.time, v, p⟩
          | _, _ => none

/-- `TradingService._get_trading_days`: splits the price-history response
on `;`, takes the `@`-prefix of each non-empty item, parses it with
`datetime.strptime("%Y%m%d")` (a parse failure propagates as an exception
out of the function), converts it to a Jalali string via
`jdatetime.date.fromgregorian`, and keeps the days inside
`start_date <= jalali <= end_date` (raw Python string comparison), in
upstream response order. -/
def get_trading_days_items (start_date end_date : String) :
    List String → Except PyErr (List String)
  | [] => .ok []
  | item :: rest =>
    if item = "" then get_trading_days_items start_date end_date rest
    else
      let date_str := (pySplitChar item '@').getD 0 ""
      match strptimeG8 date_str with
      | none =>
        .error (.valueError
          ("time data " ++ date_str ++ " does not match format"))
      | some g =>
        let jalali_date := convert_gregorian_to_jalali g
        match get_trading_days_items start_date end_date rest with
        | .error e => .error e
        | .ok days =>
          if pyStrLe start_date jalali_date ∧ pyStrLe jalali_date end_date then
            .ok (jalali_date :: days)
          else .ok days

/-- `TradingService._get_trading_days` on the raw response text. -/
def get_trading_days (response_text start_date end_date : String) :
    Except PyErr (List String) :=
  get_trading_days_items start_date end_date (pySplitChar response_text ';')

/-- The fetch loop of `TradingService.get_intraday_trades_history` (from
the `if not trading_days` check to the `df.empty` check): raises
`TSETMCDataError` when there are no trading days, caps the processed days
at `min(len(trading_days), 5)` by slicing `trading_days[:max_days]`,
collects the non-empty per-day frames, concatenates them and raises
`TSETMCDataError` when the concatenation is empty. -/
def intraday_process_days (net : String → Except PyErr (List RawTrade))
    (trading_days : List String) : Except PyErr (List Trade) :=
  if trading_days.isEmpty then
    .error (.dataError "No trading days found for the stock in the specified period.")
  else
    let max_days := min trading_days.length 5
    let results :=
      ((trading_days.take max_days).map (fetch_day_trades_sync net)).filter
        (· ≠ [])
    let df := results.flatten
    if df.isEmpty then .error (.dataError "No intraday trade data found.")
    else .ok df

/-- `TradingService.get_intraday_trades_history`: validates the stock name
and the date range, resolves the trading days from the instrument's
price-history text (`histText`, fetched through the web id), and runs the
capped per-day fetch loop.  A non-`TSETMCError` exception inside the `try`
is wrapped as `TSETMCAPIError`. -/
def get_intraday_trades_history (net : String → Except PyErr (List RawTrade))
    (histText stock start_date end_date : String) :
    Except PyErr (List Trade) :=
  match validate_stock_name stock with
  | .error e => .error e
  | .ok _ =>
    match validate_date_range start_date end_date with
    | .error e => .error e
    | .ok _ =>
      match get_trading_days histText start_date end_date with
      | .error e =>
        if e.isTSETMC then .error e
        else .error (.apiError "Could not retrieve intraday trades for the stock." none)
      | .ok trading_days =>
        match intraday_process_days net trading_days with
        | .error e =>
          if e.isTSETMC then .error e
          else .error (.apiError "Could not retrieve intraday trades for the stock." none)
        | .ok df => .ok df

/-! ## `services/market_service.py` (`get_index_history`) -/

/-- One decoded element of the `indexB2` JSON array: the `dEven` 8-digit
Gregorian date integer and the `xNivInuClMresIbs` adjusted close. -/
structure AdjEntry where
  dEven : Nat
  adjClose : ℚ
  deriving DecidableEq

/-- One row of `df_ohlc` after `dropna` and the `Date` conversion: the
other five columns are still raw strings at merge time (`to_numeric` runs
after the merge). -/
structure OhlcRow where
  date : GDate
  high : String
  low : String
  open_ : String
  close : String
  volume : String
  deriving DecidableEq

/-- One row of the merged frame
`pd.merge(df_ohlc, df_adj_close, on="Date", how="inner")` after the
`to_numeric` coercion of the numeric columns. -/
structure IndexRow where
  date : GDate
  jdate : String
  high : Option ℚ
  low : Option ℚ
  open_ : Option ℚ
  close : Option ℚ
  volume : Option ℚ
  adjClose : ℚ
  deriving DecidableEq

/-- `pd.to_datetime` on the 8-digit date texts both feeds carry. -/
def toDatetime8 (s : String) : Option GDate := strptimeG8 s

/-- Decoding of `df_adj_close`: `str(dEven)` sliced into `YYYY-MM-DD`,
parsed by `to_datetime` (a failure raises out of the `try`), and the
`J-Date` column via `jdatetime.date.fromgregorian`. -/
def decodeAdjRows : List AdjEntry → Except PyErr (List (GDate × String × ℚ))
  | [] => .ok []
  | e :: es =>
    match toDatetime8 (toString e.dEven) with
    | none => .error (.valueError "could not convert dEven to datetime")
    | some g =>
      match decodeAdjRows es with
      | .error err => .error err
      | .ok rest => .ok ((g, convert_gregorian_to_jalali g, e.adjClose) :: rest)

/-- Parsing of the OHLC feed text (`ohlc_response.text.split(";")`, each
row `split(",")`): a row longer than the seven columns makes the
`pd.DataFrame` constructor raise; a shorter row is filled with `NaN` and
dropped by `dropna()`; the `Date` column of the remaining rows goes
through `to_datetime` (a failure raises). -/
def parseOhlcRows (rows : List (List String)) :
    Except PyErr (List OhlcRow) :=
  match rows with
  | [] => .ok []
  | r :: rest =>
    if 7 < r.length then .error (.valueError "7 columns passed, data had more")
    else if r.length < 7 then parseOhlcRows rest
    else
      match toDatetime8 (r.getD 0 "") with
      | none => .error (.valueError "could not convert Date to datetime")
      | some g =>
        match parseOhlcRows rest with
        | .error e => .error e
        | .ok tail =>
          .ok (⟨g, r.getD 1 "", r.getD 2 "", r.getD 3 "", r.getD 4 "",
            r.getD 5 ""⟩ :: tail)

/-- `pd.merge(df_ohlc, df_adj_close, on="Date", how="inner")` followed by
the `to_numeric(errors="coerce")` coercion of the numeric columns: every
OHLC row pairs with every adjusted-close row carrying exactly the same
date; unmatched rows of either side are dropped. -/
def mergeIndexRows (ohlc : List OhlcRow) (adj : List (GDate × String × ℚ)) :
    List IndexRow :=
  ohlc.flatMap fun o =>
    (adj.filter fun a => a.1 = o.date).map fun a =>
      { date := o.date
        jdate := a.2.1
        high := pyParseFloat o.high
        low := pyParseFloat o.low
        open_ := pyParseFloat o.open_
        close := pyParseFloat o.close
        volume := pyParseFloat o.volume
        adjClose := a.2.2 }

/-- The joined result of `MarketService.get_index_history` (for
`just_adj_close=False`, before the date-range slicing and presentation
formatting): parses the OHLC feed text, decodes the `indexB2` entries and
inner-joins them on the exact date. -/
def get_index_history_joined (ohlcText : String) (adjB2 : List AdjEntry) :
    Except PyErr (List IndexRow) :=
  match parseOhlcRows ((pySplitChar ohlcText ';').map (pySplitChar · ',')) with
  | .error e => .error e
  | .ok ohlc =>
    match decodeAdjRows adjB2 with
    | .error e => .error e
    | .ok adj => .ok (mergeIndexRows ohlc adj)

/-- The dates present in the parsed OHLC feed. -/
def ohlcFeedDates (ohlcText : String) : List GDate :=
  match parseOhlcRows ((pySplitChar ohlcText ';').map (pySplitChar · ',')) with
  | .error _ => []
  | .ok rows => rows.map (·.date)

/-- The dates present in the adjusted-close feed. -/
def adjFeedDates (adjB2 : List AdjEntry) : List GDate :=
  adjB2.filterMap fun e => toDatetime8 (toString e.dEven)

/-! ## Lemmas about `pyRangePos` and `chunk_list` -/

lemma pyRangePos_def (start stop step : Nat) :
    pyRangePos start stop step =
      if 0 < step ∧ start < stop then
        start :: pyRangePos (start + step) stop step
      else [] := by
  rw [pyRangePos]
  simp only [dite_eq_ite]

lemma pyRangePos_shift (step : Nat) (hstep : 0 < step) :
    ∀ (n s stop : Nat), stop - s ≤ n →
      pyRangePos (s + step) stop step =
        (pyRangePos s (stop - step) step).map (· + step) := by
  intro n
  induction n with
  | zero =>
    intro s stop h
    rw [pyRangePos_def (s + step) stop step, if_neg (by omega)]
    rw [pyRangePos_def s (stop - step) step, if_neg (by omega)]
    simp
  | succ n ih =>
    intro s stop h
    by_cases hlt : s + step < stop
    · rw [pyRangePos_def (s + step) stop step, if_pos ⟨hstep, hlt⟩]
      rw [pyRangePos_def s (stop - step) step, if_pos ⟨hstep, by omega⟩]
      simp only [List.map_cons]
      refine congrArg₂ _ rfl ?_
      exact ih (s + step) stop (by omega)
    · rw [pyRangePos_def (s + step) stop step, if_neg (by omega)]
      rw [pyRangePos_def s (stop - step) step, if_neg (by omega)]
      simp

/-- The chunk comprehension of `chunk_list` for a positive `Nat` size. -/
def chunksOf {α : Type} (xs : List α) (k : Nat) : List (List α) :=
  (pyRangePos 0 xs.length k).map fun i => (xs.drop i).take k

lemma chunk_list_pos {α : Type} (xs : List α) (k : Int) (hk : 0 < k) :
    chunk_list xs k = .ok (chunksOf xs k.toNat) := by
  unfold chunk_list chunksOf
  rw [if_neg (by omega)]

lemma chunksOf_nil {α : Type} (k : Nat) : chunksOf ([] : List α) k = [] := by
  unfold chunksOf
  rw [pyRangePos_def, if_neg (by simp)]
  simp

lemma chunksOf_cons {α : Type} (xs : List α) (k : Nat) (hk : 0 < k)
    (hxs : xs ≠ []) :
    chunksOf xs k = xs.take k :: chunksOf (xs.drop k) k := by
  unfold chunksOf
  rw [pyRangePos_def 0 xs.length k,
    if_pos ⟨hk, List.length_pos.mpr hxs⟩]
  simp only [List.map_cons, List.drop_zero]
  refine congrArg₂ _ rfl ?_
  have hshift := pyRangePos_shift k hk xs.length 0 xs.length (by omega)
  rw [Nat.zero_add] at hshift ⊢
  rw [hshift, List.map_map, List.length_drop]
  refine List.map_congr_left ?_
  intro i _
  simp only [Function.comp_apply]
  rw [List.drop_drop, Nat.add_comm i k]

lemma chunksOf_spec {α : Type} (k : Nat) (hk : 0 < k) :
    ∀ (n : Nat) (xs : List α), xs.length ≤ n →
      (chunksOf xs k).flatten = xs ∧
      (∀ c ∈ (chunksOf xs k).dropLast, c.length = k) ∧
      (∀ c ∈ chunksOf xs k, c ≠ []) := by
  intro n
  induction n with
  | zero =>
    intro xs h
    have hxs : xs = [] := List.eq_nil_of_length_eq_zero (by omega)
    subst hxs
    simp [chunksOf_nil]
  | succ n ih =>
    intro xs h
    by_cases hxs : xs = []
    · subst hxs
      simp [chunksOf_nil]
    · have hlen : 0 < xs.length := List.length_pos.mpr hxs
      have hdrop : (xs.drop k).length ≤ n := by
        rw [List.length_drop]; omega
      obtain ⟨ihflat, ihlast, ihne⟩ := ih (xs.drop k) hdrop
      rw [chunksOf_cons xs k hk hxs]
      refine ⟨?_, ?_, ?_⟩
      · rw [List.flatten_cons, ihflat, List.take_append_drop]
      · intro c hc
        by_cases htail : chunksOf (xs.drop k) k = []
        · rw [htail] at hc
          simp at hc
        · rw [List.dropLast_cons_of_ne_nil htail] at hc
          rcases List.mem_cons.mp hc with hc | hc
          · subst hc
            have hkx : k < xs.length := by
              by_contra hcon
              exact htail (by
                have : xs.drop k = [] := by
                  apply List.eq_nil_of_length_eq_zero
                  rw [List.length_drop]; omega
                rw [this, chunksOf_nil])
            rw [List.length_take]
            omega
          · exact ihlast c hc
      · intro c hc
        rcases List.mem_cons.mp hc with hc | hc
        · subst hc
          intro hcon
          have := congrArg List.length hcon
          rw [List.length_take] at this
          simp only [List.length_nil] at this
          omega
        · exact ihne c hc

/-- **C10** — `utils.chunk_list`: for a positive chunk size the chunks
concatenate back to the input, every chunk except possibly the last has
exactly `chunk_size` elements, and every chunk (in particular the last
one, when the input is non-empty) is non-empty; for a non-positive chunk
size the function raises `ValueError` and returns nothing. -/
theorem chunk_list_correct :
    (∀ (α : Type) (xs : List α) (k : Int), 0 < k →
      ∃ cs, chunk_list xs k = .ok cs ∧
        cs.flatten = xs ∧
        (∀ c ∈ cs.dropLast, c.length = k.toNat) ∧
        (xs ≠ [] → cs ≠ []) ∧
        (∀ c ∈ cs, c ≠ [])) ∧
    (∀ (α : Type) (xs : List α) (k : Int), k ≤ 0 →
      chunk_list xs k = .error (.valueError "Chunk size must be positive")) := by
  constructor
  · intro α xs k hk
    have hkn : 0 < k.toNat := by omega
    obtain ⟨hflat, hlast, hne⟩ :=
      chunksOf_spec k.toNat hkn xs.length xs (Nat.le_refl _)
    refine ⟨chunksOf xs k.toNat, chunk_list_pos xs k hk, hflat, hlast, ?_, hne⟩
    intro hxs
    rw [chunksOf_cons xs k.toNat hkn hxs]
    simp
  · intro α xs k hk
    unfold chunk_list
    rw [if_pos hk]

/-- Witness for C10 at `xs = [1,2,3,4,5]`, `k = 2` and `k = 0`. -/
theorem chunk_list_correct_witness :
    (∃ cs, chunk_list [1, 2, 3, 4, 5] (2 : Int) = .ok cs ∧
      cs.flatten = [1, 2, 3, 4, 5] ∧
      (∀ c ∈ cs.dropLast, c.length = (2 : Int).toNat) ∧
      (([1, 2, 3, 4, 5] : List Nat) ≠ [] → cs ≠ []) ∧
      (∀ c ∈ cs, c ≠ [])) ∧
    chunk_list [1, 2, 3] (0 : Int) =
      .error (.valueError "Chunk size must be positive") :=
  ⟨chunk_list_correct.1 Nat [1, 2, 3, 4, 5] 2 (by decide),
   chunk_list_correct.2 Nat [1, 2, 3] 0 (by decide)⟩

/-! ## Round-trip exactness of the calendar conversion (C4)

The proof works with day-number encodings: `jEncDays` is the day counter
`jalali_to_gregorian` builds, `decodeGYear`/`monthFinish` its decoding
tail; `gEncDays` is the counter `gregorian_to_jalali` builds and
`decodeJ` its decoding tail.  The two compositions are definitionally the
source functions; the inversion facts are arithmetic. -/

/-- The `days` counter built by `jalali_to_gregorian` before decoding. -/
def jEncDays (jy0 jm jd : Nat) : Nat :=
  let jy := if jy0 > 979 then jy0 - 979 else jy0
  (if jm < 7 then (jm - 1) * 31 else (jm - 7) * 30 + 186) +
    365 * jy + (jy / 33) * 8 + ((jy % 33) + 3) / 4 + 78 + jd

/-- The year-decoding stage of `jalali_to_gregorian`: returns the
Gregorian year and the zero-based day of the year. -/
def decodeGYear (gy0 days1 : Nat) : Nat × Nat :=
  let gy1 := gy0 + 400 * (days1 / 146097)
  let days2 := days1 % 146097
  let q : Nat × Nat :=
    if days2 > 36524 then
      let d3 := days2 - 1
      let gy := gy1 + 100 * (d3 / 36524)
      let d4 := d3 % 36524
      (gy, if d4 ≥ 365 then d4 + 1 else d4)
    else (gy1, days2)
  let gy3 := q.1 + 4 * (q.2 / 1461)
  let days6 := q.2 % 1461
  if days6 > 365 then (gy3 + (days6 - 1) / 365, (days6 - 1) % 365)
  else (gy3, days6)

/-- The Gregorian leap condition used by `jalali_to_gregorian`. -/
def kabCond (gy : Nat) : Prop :=
  (gy % 4 = 0 ∧ gy % 100 ≠ 0) ∨ gy % 400 = 0

instance (gy : Nat) : Decidable (kabCond gy) := by
  unfold kabCond; infer_instance

/-- The month-decoding stage of `jalali_to_gregorian`. -/
def monthFinish (gy4 gd0 : Nat) : Nat × Nat × Nat :=
  let kab := if kabCond gy4 then 29 else 28
  let mres := gMonthLoop (salATable kab) 0 gd0
  (gy4, mres.1, mres.2)

lemma jalali_to_gregorian_staged (jy0 jm jd : Nat) :
    jalali_to_gregorian jy0 jm jd =
      monthFinish
        (decodeGYear (if jy0 > 979 then 1600 else 621) (jEncDays jy0 jm jd)).1
        ((decodeGYear (if jy0 > 979 then 1600 else 621)
          (jEncDays jy0 jm jd)).2 + 1) := by
  unfold jalali_to_gregorian monthFinish decodeGYear jEncDays kabCond
  by_cases h : jy0 > 979 <;> simp only [if_pos, if_neg, h, if_true, if_false]

/-- The `days` counter built by `gregorian_to_jalali` before decoding. -/
def gEncDays (gy0 gm gd : Nat) : Nat :=
  let gy := if gy0 > 1600 then gy0 - 1600 else gy0 - 621
  let gy2 := if gm > 2 then gy + 1 else gy
  365 * gy + (gy2 + 3) / 4 - (gy2 + 99) / 100 + (gy2 + 399) / 400 - 80 + gd +
    gdmTable.getD (gm - 1) 0

/-- The decoding tail of `gregorian_to_jalali`. -/
def decodeJ (jy0 days1 : Nat) : Nat × Nat × Nat :=
  let jy1 := jy0 + 33 * (days1 / 12053)
  let days2 := days1 % 12053
  let jy2 := jy1 + 4 * (days2 / 1461)
  let days3 := days2 % 1461
  let q : Nat × Nat :=
    if days3 > 365 then (jy2 + (days3 - 1) / 365, (days3 - 1) % 365)
    else (jy2, days3)
  if q.2 < 186 then (q.1, 1 + q.2 / 31, 1 + q.2 % 31)
  else (q.1, 7 + (q.2 - 186) / 30, 1 + (q.2 - 186) % 30)

lemma gregorian_to_jalali_staged (gy0 gm gd : Nat) :
    gregorian_to_jalali gy0 gm gd =
      decodeJ (if gy0 > 1600 then 979 else 0) (gEncDays gy0 gm gd) := by
  unfold gregorian_to_jalali decodeJ gEncDays
  by_cases h : gy0 > 1600 <;> simp only [if_pos, if_neg, h, if_true, if_false]

/-- The day number of January 1 of Gregorian year `gy`, minus one, in the
counter scale of `gEncDays`. -/
def gregF (gy : Nat) : Nat :=
  365 * (gy - 1600) + ((gy - 1600) + 3) / 4 - ((gy - 1600) + 99) / 100 +
    ((gy - 1600) + 399) / 400 - 80

/-- Component bounds implied by the `jdatetime.date` validity check. -/
lemma jDateValid_bounds (y m d : Nat) (h : jDateValid y m d = true) :
    1 ≤ m ∧ m ≤ 12 ∧ 1 ≤ d ∧ d ≤ 31 := by
  simp only [jDateValid, Bool.and_eq_true, decide_eq_true_eq] at h
  obtain ⟨⟨⟨⟨⟨_, _⟩, hm1⟩, hm2⟩, hd1⟩, hd⟩ := h
  refine ⟨hm1, hm2, hd1, ?_⟩
  split at hd
  · split at hd
    · have := of_decide_eq_true hd; omega
    · have := of_decide_eq_true hd; omega
  · have hdle := of_decide_eq_true hd
    have hle : jDaysInMonth.getD (m - 1) 0 ≤ 31 := by
      interval_cases m <;> decide
    omega

/-- Linear facts implied by the `jdatetime.date` validity check, in a
form usable by `omega`. -/
lemma jDateValid_linear (y m d : Nat) (h : jDateValid y m d = true) :
    1 ≤ y ∧ 1 ≤ m ∧ m ≤ 12 ∧ 1 ≤ d ∧
      (m < 7 → d ≤ 31) ∧ (7 ≤ m → m ≤ 11 → d ≤ 30) ∧
      (m = 12 → (jIsLeap y = true → d ≤ 30) ∧ (jIsLeap y = false → d ≤ 29)) := by
  simp only [jDateValid, Bool.and_eq_true, decide_eq_true_eq] at h
  obtain ⟨⟨⟨⟨⟨hy1, _⟩, hm1⟩, hm2⟩, hd1⟩, hd⟩ := h
  refine ⟨hy1, hm1, hm2, hd1, ?_, ?_, ?_⟩
  · intro hm7
    split at hd
    · omega
    · have := of_decide_eq_true hd
      have hle : jDaysInMonth.getD (m - 1) 0 ≤ 31 := by
        interval_cases m <;> decide
      omega
  · intro h7 h11
    split at hd
    · omega
    · have := of_decide_eq_true hd
      have hle : jDaysInMonth.getD (m - 1) 0 ≤ 30 := by
        interval_cases m <;> first | decide | omega
      omega
  · intro h12
    subst h12
    rw [if_pos rfl] at hd
    constructor
    · intro hl
      rw [if_pos hl] at hd
      exact of_decide_eq_true hd
    · intro hl
      rw [hl] at hd
      simp only [Bool.false_eq_true, if_false] at hd
      exact of_decide_eq_true hd

/-- The post-decoding invariant of `decodeGYear` on the day-number range
the claim's years produce: the Gregorian year lands in `1921..2072`, the
second component is a zero-based day of that year, and the pair re-encodes
to the day number through `gregF`. -/
def decodeGYearOK (n : Nat) : Prop :=
  1921 ≤ (decodeGYear 1600 n).1 ∧ (decodeGYear 1600 n).1 ≤ 2072 ∧
    n = gregF (decodeGYear 1600 n).1 + 80 + (decodeGYear 1600 n).2 ∧
    (decodeGYear 1600 n).2 ≤
      364 + (if kabCond (decodeGYear 1600 n).1 then 1 else 0)

lemma gregLeafA1 (n j r k s : Nat) (hjr : 1461 * j + r = n - 109573 + 1)
    (hrlt : r < 1461) (hjb : 5 ≤ j ∧ j ≤ 24) (hn1 : 117322 ≤ n)
    (hc : n < 146097) (h365 : r > 365) (hks : 365 * k + s = r - 1)
    (hslt : s < 365) (hkb : 1 ≤ k ∧ k ≤ 3) :
    1921 ≤ 1600 + 400 * 0 + 100 * 3 + 4 * j + k ∧
      1600 + 400 * 0 + 100 * 3 + 4 * j + k ≤ 2072 ∧
      n = 365 * (1600 + 400 * 0 + 100 * 3 + 4 * j + k - 1600) +
            (1600 + 400 * 0 + 100 * 3 + 4 * j + k - 1600 + 3) / 4 -
            (1600 + 400 * 0 + 100 * 3 + 4 * j + k - 1600 + 99) / 100 +
            (1600 + 400 * 0 + 100 * 3 + 4 * j + k - 1600 + 399) / 400 - 80 +
            80 + s := by
  rw [show (1600 + 400 * 0 + 100 * 3 + 4 * j + k - 1600 + 3) / 4 = 76 + j
      from by omega,
    show (1600 + 400 * 0 + 100 * 3 + 4 * j + k - 1600 + 99) / 100 = 4
      from by omega,
    show (1600 + 400 * 0 + 100 * 3 + 4 * j + k - 1600 + 399) / 400 = 1
      from by omega]
  omega

lemma gregLeafA3 (n j r : Nat) (hjr : 1461 * j + r = n - 109573 + 1)
    (hrlt : r < 1461) (hjb : 5 ≤ j ∧ j ≤ 24) (hn1 : 117322 ≤ n)
    (hc : n < 146097) (h365 : ¬ r > 365) :
    1921 ≤ 1600 + 400 * 0 + 100 * 3 + 4 * j ∧
      1600 + 400 * 0 + 100 * 3 + 4 * j ≤ 2072 ∧
      n = 365 * (1600 + 400 * 0 + 100 * 3 + 4 * j - 1600) +
            (1600 + 400 * 0 + 100 * 3 + 4 * j - 1600 + 3) / 4 -
            (1600 + 400 * 0 + 100 * 3 + 4 * j - 1600 + 99) / 100 +
            (1600 + 400 * 0 + 100 * 3 + 4 * j - 1600 + 399) / 400 - 80 + 80 +
            r := by
  rw [show (1600 + 400 * 0 + 100 * 3 + 4 * j - 1600 + 3) / 4 = 75 + j
      from by omega,
    show (1600 + 400 * 0 + 100 * 3 + 4 * j - 1600 + 99) / 100 = 4
      from by omega,
    show (1600 + 400 * 0 + 100 * 3 + 4 * j - 1600 + 399) / 400 = 1
      from by omega]
  omega

lemma gregLeafB1 (n j r k s : Nat) (hjr : 1461 * j + r = n - 146097)
    (hrlt : r < 1461) (hjb : j ≤ 18) (hc : 146097 ≤ n) (hn2 : n ≤ 172475)
    (h365 : r > 365) (hks : 365 * k + s = r - 1) (hslt : s < 365)
    (hkb : 1 ≤ k ∧ k ≤ 3) :
    1921 ≤ 1600 + 400 * 1 + 4 * j + k ∧
      1600 + 400 * 1 + 4 * j + k ≤ 2072 ∧
      n = 365 * (1600 + 400 * 1 + 4 * j + k - 1600) +
            (1600 + 400 * 1 + 4 * j + k - 1600 + 3) / 4 -
            (1600 + 400 * 1 + 4 * j + k - 1600 + 99) / 100 +
            (1600 + 400 * 1 + 4 * j + k - 1600 + 399) / 400 - 80 + 80 + s := by
  rw [show (1600 + 400 * 1 + 4 * j + k - 1600 + 3) / 4 = 101 + j
      from by omega,
    show (1600 + 400 * 1 + 4 * j + k - 1600 + 99) / 100 = 5 from by omega,
    show (1600 + 400 * 1 + 4 * j + k - 1600 + 399) / 400 = 2 from by omega]
  omega

lemma gregLeafB3 (n j r : Nat) (hjr : 1461 * j + r = n - 146097)
    (hrlt : r < 1461) (hjb : j ≤ 18) (hc : 146097 ≤ n) (hn2 : n ≤ 172475)
    (h365 : ¬ r > 365) :
    1921 ≤ 1600 + 400 * 1 + 4 * j ∧
      1600 + 400 * 1 + 4 * j ≤ 2072 ∧
      n = 365 * (1600 + 400 * 1 + 4 * j - 1600) +
            (1600 + 400 * 1 + 4 * j - 1600 + 3) / 4 -
            (1600 + 400 * 1 + 4 * j - 1600 + 99) / 100 +
            (1600 + 400 * 1 + 4 * j - 1600 + 399) / 400 - 80 + 80 + r := by
  rcases Nat.eq_zero_or_pos j with hj0 | hj0
  · rw [show (1600 + 400 * 1 + 4 * j - 1600 + 3) / 4 = 100 + j from by omega,
      show (1600 + 400 * 1 + 4 * j - 1600 + 99) / 100 = 4 from by omega,
      show (1600 + 400 * 1 + 4 * j - 1600 + 399) / 400 = 1 from by omega]
    omega
  · rw [show (1600 + 400 * 1 + 4 * j - 1600 + 3) / 4 = 100 + j from by omega,
      show (1600 + 400 * 1 + 4 * j - 1600 + 99) / 100 = 5 from by omega,
      show (1600 + 400 * 1 + 4 * j - 1600 + 399) / 400 = 2 from by omega]
    omega

lemma decodeGYear_specA (n : Nat) (hn1 : 117322 ≤ n) (hc : n < 146097) :
    decodeGYearOK n := by
  set j := (n - 109573 + 1) / 1461 with hj
  set r := (n - 109573 + 1) % 1461 with hr
  have hjr : 1461 * j + r = n - 109573 + 1 := Nat.div_add_mod _ _
  have hrlt : r < 1461 := by rw [hr]; exact Nat.mod_lt _ (by omega)
  have hjb : 5 ≤ j ∧ j ≤ 24 := by omega
  have hD : decodeGYear 1600 n =
      if r > 365 then
        (1600 + 400 * 0 + 100 * 3 + 4 * j + (r - 1) / 365, (r - 1) % 365)
      else (1600 + 400 * 0 + 100 * 3 + 4 * j, r) := by
    unfold decodeGYear
    dsimp only
    rw [Nat.div_eq_of_lt hc, Nat.mod_eq_of_lt hc]
    rw [if_pos (show n > 36524 by omega)]
    try dsimp only
    rw [show (n - 1) / 36524 = 3 from by omega,
      show (n - 1) % 36524 = n - 109573 from by omega,
      if_pos (show n - 109573 ≥ 365 by omega)]
    try dsimp only
  clear hj hr
  clear_value j r
  unfold decodeGYearOK
  rw [hD]
  split_ifs with h365 hkab hkab <;> unfold kabCond at hkab
  · set k := (r - 1) / 365 with hkd
    set s := (r - 1) % 365 with hsd
    have hks : 365 * k + s = r - 1 := Nat.div_add_mod _ _
    have hslt : s < 365 := by rw [hsd]; exact Nat.mod_lt _ (by omega)
    have hkb : 1 ≤ k ∧ k ≤ 3 := by omega
    clear hkd hsd
    clear_value k s
    unfold gregF
    obtain ⟨c1, c2, c3⟩ := gregLeafA1 n j r k s hjr hrlt hjb hn1 hc h365 hks
      hslt hkb
    exact ⟨c1, c2, c3, by omega⟩
  · set k := (r - 1) / 365 with hkd
    set s := (r - 1) % 365 with hsd
    have hks : 365 * k + s = r - 1 := Nat.div_add_mod _ _
    have hslt : s < 365 := by rw [hsd]; exact Nat.mod_lt _ (by omega)
    have hkb : 1 ≤ k ∧ k ≤ 3 := by omega
    clear hkd hsd
    clear_value k s
    unfold gregF
    obtain ⟨c1, c2, c3⟩ := gregLeafA1 n j r k s hjr hrlt hjb hn1 hc h365 hks
      hslt hkb
    exact ⟨c1, c2, c3, by omega⟩
  · unfold gregF
    obtain ⟨c1, c2, c3⟩ := gregLeafA3 n j r hjr hrlt hjb hn1 hc h365
    exact ⟨c1, c2, c3, by omega⟩
  · exact absurd (by omega) hkab

lemma decodeGYear_specB (n : Nat) (hc : 146097 ≤ n) (hn2 : n ≤ 172475) :
    decodeGYearOK n := by
  set j := (n - 146097) / 1461 with hj
  set r := (n - 146097) % 1461 with hr
  have hjr : 1461 * j + r = n - 146097 := Nat.div_add_mod _ _
  have hrlt : r < 1461 := by rw [hr]; exact Nat.mod_lt _ (by omega)
  have hjb : j ≤ 18 := by omega
  have hD : decodeGYear 1600 n =
      if r > 365 then (1600 + 400 * 1 + 4 * j + (r - 1) / 365, (r - 1) % 365)
      else (1600 + 400 * 1 + 4 * j, r) := by
    unfold decodeGYear
    dsimp only
    rw [show n / 146097 = 1 from by omega,
      show n % 146097 = n - 146097 from by omega,
      if_neg (show ¬ n - 146097 > 36524 by omega)]
    try dsimp only
  clear hj hr
  clear_value j r
  unfold decodeGYearOK
  rw [hD]
  split_ifs with h365 hkab hkab <;> unfold kabCond at hkab
  · set k := (r - 1) / 365 with hkd
    set s := (r - 1) % 365 with hsd
    have hks : 365 * k + s = r - 1 := Nat.div_add_mod _ _
    have hslt : s < 365 := by rw [hsd]; exact Nat.mod_lt _ (by omega)
    have hkb : 1 ≤ k ∧ k ≤ 3 := by omega
    clear hkd hsd
    clear_value k s
    unfold gregF
    obtain ⟨c1, c2, c3⟩ := gregLeafB1 n j r k s hjr hrlt hjb hc hn2 h365 hks
      hslt hkb
    exact ⟨c1, c2, c3, by omega⟩
  · set k := (r - 1) / 365 with hkd
    set s := (r - 1) % 365 with hsd
    have hks : 365 * k + s = r - 1 := Nat.div_add_mod _ _
    have hslt : s < 365 := by rw [hsd]; exact Nat.mod_lt _ (by omega)
    have hkb : 1 ≤ k ∧ k ≤ 3 := by omega
    clear hkd hsd
    clear_value k s
    unfold gregF
    obtain ⟨c1, c2, c3⟩ := gregLeafB1 n j r k s hjr hrlt hjb hc hn2 h365 hks
      hslt hkb
    exact ⟨c1, c2, c3, by omega⟩
  · unfold gregF
    obtain ⟨c1, c2, c3⟩ := gregLeafB3 n j r hjr hrlt hjb hc hn2 h365
    exact ⟨c1, c2, c3, by omega⟩
  · exact absurd (by omega) hkab

/-- Combined form of the two decoding cases. -/
lemma decodeGYear_spec (n : Nat) (hn1 : 117322 ≤ n) (hn2 : n ≤ 172475) :
    decodeGYearOK n := by
  rcases Nat.lt_or_ge n 146097 with hc | hc
  · exact decodeGYear_specA n hn1 hc
  · exact decodeGYear_specB n hc hn2

/-- Invariant of `gMonthLoop`: it consumes a prefix of the month-length
list, counts the consumed entries, and leaves the day remainder. -/
lemma gMonthLoop_go (l : List Nat) : ∀ (gm gd : Nat), 1 ≤ gd →
    ∃ i, i ≤ l.length ∧ (gMonthLoop l gm gd).1 = gm + i ∧
      1 ≤ (gMonthLoop l gm gd).2 ∧
      (l.take i).sum + (gMonthLoop l gm gd).2 = gd ∧
      (i < l.length → (gMonthLoop l gm gd).2 ≤ l.getD i 0) := by
  induction l with
  | nil =>
    intro gm gd h
    refine ⟨0, by simp, by simp [gMonthLoop], by simpa [gMonthLoop], ?_, ?_⟩
    · simpa [gMonthLoop]
    · intro hcon; simp at hcon
  | cons a rest ih =>
    intro gm gd h
    rw [gMonthLoop]
    by_cases hgd : gd > a
    · rw [if_pos hgd]
      obtain ⟨i, hi, h1, h2, h3, h4⟩ := ih (gm + 1) (gd - a) (by omega)
      refine ⟨i + 1, by simpa using hi, by rw [h1]; omega, h2, ?_, ?_⟩
      · rw [List.take_succ_cons, List.sum_cons]
        omega
      · intro hlt
        simp only [List.length_cons] at hlt
        exact h4 (by omega)
    · rw [if_neg hgd]
      refine ⟨0, by simp, by simp, h, by simpa, ?_⟩
      intro _
      simpa using (by omega : gd ≤ a)

/-- Prefix sums of `salATable` against the cumulative table `gdmTable`. -/
lemma salATable_take_sum (kab : Nat) (hkab : kab = 28 ∨ kab = 29) (M : Nat)
    (h1 : 1 ≤ M) (h2 : M ≤ 12) :
    ((salATable kab).take M).sum =
      gdmTable.getD (M - 1) 0 + (if 2 < M then kab - 28 else 0) := by
  rcases hkab with hk | hk <;> subst hk <;> interval_cases M <;> decide

/-- The month loop of `jalali_to_gregorian` splits a one-based day of the
year into a month and a day such that re-adding the cumulative month
lengths recovers the day of the year. -/
lemma gMonthLoop_inv (kab : Nat) (hkab : kab = 28 ∨ kab = 29) (gd0 : Nat)
    (h1 : 1 ≤ gd0) (h2 : gd0 ≤ 337 + kab) :
    1 ≤ (gMonthLoop (salATable kab) 0 gd0).1 ∧
    (gMonthLoop (salATable kab) 0 gd0).1 ≤ 12 ∧
    1 ≤ (gMonthLoop (salATable kab) 0 gd0).2 ∧
    gdmTable.getD ((gMonthLoop (salATable kab) 0 gd0).1 - 1) 0 +
        (if 2 < (gMonthLoop (salATable kab) 0 gd0).1 then kab - 28 else 0) +
        (gMonthLoop (salATable kab) 0 gd0).2 = gd0 := by
  obtain ⟨i, hi, hgm, hgd, hsum, hstop⟩ :=
    gMonthLoop_go (salATable kab) 0 gd0 h1
  have hlen : (salATable kab).length = 13 := by
    rcases hkab with hk | hk <;> subst hk <;> decide
  have hget0 : (salATable kab).getD 0 0 = 0 := by
    rcases hkab with hk | hk <;> subst hk <;> decide
  have hsumall : ((salATable kab).take 13).sum = 337 + kab := by
    rcases hkab with hk | hk <;> subst hk <;> decide
  have hine0 : i ≠ 0 := by
    intro h0
    subst h0
    have := hstop (by omega)
    rw [hget0] at this
    omega
  have hile : i ≤ 12 := by
    by_contra hcon
    have hi13 : i = 13 := by omega
    subst hi13
    rw [hsumall] at hsum
    omega
  have hM : (gMonthLoop (salATable kab) 0 gd0).1 = i := by omega
  refine ⟨by omega, by omega, hgd, ?_⟩
  rw [hM, ← salATable_take_sum kab hkab i (by omega) hile]
  exact hsum

/-- Re-encoding the date produced by the month-decoding stage gives back
the day number `gregF gy + 1 + t`. -/
lemma monthFinish_encode (gy t : Nat) (h1 : 1921 ≤ gy) (h2 : gy ≤ 2072)
    (ht : t ≤ 364 + (if kabCond gy then 1 else 0)) :
    (monthFinish gy (t + 1)).1 = gy ∧
    gEncDays (monthFinish gy (t + 1)).1 (monthFinish gy (t + 1)).2.1
      (monthFinish gy (t + 1)).2.2 = gregF gy + 1 + t := by
  unfold monthFinish
  dsimp only
  refine ⟨rfl, ?_⟩
  by_cases hkab : kabCond gy
  · rw [if_pos hkab] at ht ⊢
    obtain ⟨hM1, hM12, hD1, hsum⟩ :=
      gMonthLoop_inv 29 (Or.inr rfl) (t + 1) (by omega) (by omega)
    set M := (gMonthLoop (salATable 29) 0 (t + 1)).1 with hMd
    set D := (gMonthLoop (salATable 29) 0 (t + 1)).2 with hDd
    clear hMd hDd
    clear_value M D
    unfold gEncDays gregF
    dsimp only
    rw [if_pos (show gy > 1600 by omega)]
    unfold kabCond at hkab
    rcases hkab with ⟨hm4, hm100⟩ | hm400
    · have d4 : (gy - 1600 + 1 + 3) / 4 = (gy - 1600 + 3) / 4 + 1 := by omega
      have d100 : (gy - 1600 + 1 + 99) / 100 = (gy - 1600 + 99) / 100 := by
        omega
      have d400 : (gy - 1600 + 1 + 399) / 400 = (gy - 1600 + 399) / 400 := by
        omega
      by_cases hM2 : M > 2
      · rw [if_pos hM2]
        rw [if_pos (show 2 < M by omega)] at hsum
        omega
      · rw [if_neg hM2]
        rw [if_neg (show ¬ 2 < M by omega)] at hsum
        omega
    · have d4 : (gy - 1600 + 1 + 3) / 4 = (gy - 1600 + 3) / 4 + 1 := by omega
      have d100 : (gy - 1600 + 1 + 99) / 100 = (gy - 1600 + 99) / 100 + 1 :=
        by omega
      have d400 : (gy - 1600 + 1 + 399) / 400 = (gy - 1600 + 399) / 400 + 1 :=
        by omega
      by_cases hM2 : M > 2
      · rw [if_pos hM2]
        rw [if_pos (show 2 < M by omega)] at hsum
        omega
      · rw [if_neg hM2]
        rw [if_neg (show ¬ 2 < M by omega)] at hsum
        omega
  · rw [if_neg hkab] at ht ⊢
    obtain ⟨hM1, hM12, hD1, hsum⟩ :=
      gMonthLoop_inv 28 (Or.inl rfl) (t + 1) (by omega) (by omega)
    set M := (gMonthLoop (salATable 28) 0 (t + 1)).1 with hMd
    set D := (gMonthLoop (salATable 28) 0 (t + 1)).2 with hDd
    clear hMd hDd
    clear_value M D
    unfold gEncDays gregF
    dsimp only
    rw [if_pos (show gy > 1600 by omega)]
    unfold kabCond at hkab
    push_neg at hkab
    obtain ⟨hnk, hm400⟩ := hkab
    by_cases hm4 : gy % 4 = 0
    · have hm100 : gy % 100 = 0 := hnk hm4
      have d4 : (gy - 1600 + 1 + 3) / 4 = (gy - 1600 + 3) / 4 + 1 := by omega
      have d100 : (gy - 1600 + 1 + 99) / 100 = (gy - 1600 + 99) / 100 + 1 :=
        by omega
      have d400 : (gy - 1600 + 1 + 399) / 400 = (gy - 1600 + 399) / 400 := by
        omega
      by_cases hM2 : M > 2
      · rw [if_pos hM2]
        rw [if_pos (show 2 < M by omega)] at hsum
        omega
      · rw [if_neg hM2]
        rw [if_neg (show ¬ 2 < M by omega)] at hsum
        omega
    · have d4 : (gy - 1600 + 1 + 3) / 4 = (gy - 1600 + 3) / 4 := by omega
      have d100 : (gy - 1600 + 1 + 99) / 100 = (gy - 1600 + 99) / 100 := by
        omega
      have d400 : (gy - 1600 + 1 + 399) / 400 = (gy - 1600 + 399) / 400 := by
        omega
      by_cases hM2 : M > 2
      · rw [if_pos hM2]
        rw [if_pos (show 2 < M by omega)] at hsum
        omega
      · rw [if_neg hM2]
        rw [if_neg (show ¬ 2 < M by omega)] at hsum
        omega

/-- The leap-year set of `jIsLeap`, as an `omega`-usable disjunction. -/
lemma jIsLeap_cases (y : Nat) :
    (jIsLeap y = true ↔
      y % 33 = 1 ∨ y % 33 = 5 ∨ y % 33 = 9 ∨ y % 33 = 13 ∨
      y % 33 = 17 ∨ y % 33 = 22 ∨ y % 33 = 26 ∨ y % 33 = 30) := by
  have hlt : y % 33 < 33 := Nat.mod_lt _ (by omega)
  constructor
  · intro h
    unfold jIsLeap at h
    set r := y % 33 with hr
    interval_cases r <;> simp_all
  · intro h
    unfold jIsLeap
    rcases h with h | h | h | h | h | h | h | h <;> rw [h] <;> decide

/-- Decoding within one 33-year Jalali cycle: the 4-year block split of
`decodeJ` recovers the year offset and the day of the year. -/
lemma cycleDecode (r doy : Nat) (hr : r ≤ 32)
    (hdoy : doy ≤ 364 ∨ (doy = 365 ∧ r % 4 = 0 ∧ r ≤ 28)) :
    365 * r + (r + 3) / 4 + doy < 12053 ∧
    4 * ((365 * r + (r + 3) / 4 + doy) / 1461) +
      (if (365 * r + (r + 3) / 4 + doy) % 1461 > 365
        then ((365 * r + (r + 3) / 4 + doy) % 1461 - 1) / 365 else 0) = r ∧
    (if (365 * r + (r + 3) / 4 + doy) % 1461 > 365
      then ((365 * r + (r + 3) / 4 + doy) % 1461 - 1) % 365
      else (365 * r + (r + 3) / 4 + doy) % 1461) = doy := by
  interval_cases r <;> split_ifs <;> omega

/-- `decodeJ` inverts the staged day-number encoding. -/
lemma decodeJ_core (q r doy y m d : Nat)
    (hy : y = 979 + 33 * q + r) (hr : r ≤ 32)
    (hdoy : doy ≤ 364 ∨ (doy = 365 ∧ r % 4 = 0 ∧ r ≤ 28))
    (hrec1 : doy < 186 → 1 + doy / 31 = m ∧ 1 + doy % 31 = d)
    (hrec2 : 186 ≤ doy → 7 + (doy - 186) / 30 = m ∧ 1 + (doy - 186) % 30 = d) :
    decodeJ 979 (12053 * q + (365 * r + (r + 3) / 4 + doy)) = (y, m, d) := by
  obtain ⟨hRlt, hyear, hdoyr⟩ := cycleDecode r doy hr hdoy
  unfold decodeJ
  dsimp only
  set R := 365 * r + (r + 3) / 4 + doy with hRdef
  clear_value R
  have hq1 : (12053 * q + R) / 12053 = q := by omega
  have hq2 : (12053 * q + R) % 12053 = R := by omega
  rw [hq1, hq2]
  by_cases h365 : R % 1461 > 365
  · rw [if_pos h365] at hyear hdoyr ⊢
    dsimp only
    rw [hdoyr]
    by_cases h186 : doy < 186
    · rw [if_pos h186]
      obtain ⟨hm, hd⟩ := hrec1 h186
      simp only [Prod.mk.injEq]
      exact ⟨by omega, hm, hd⟩
    · rw [if_neg h186]
      obtain ⟨hm, hd⟩ := hrec2 (by omega)
      simp only [Prod.mk.injEq]
      exact ⟨by omega, hm, hd⟩
  · rw [if_neg h365] at hyear hdoyr ⊢
    dsimp only
    rw [hdoyr]
    by_cases h186 : doy < 186
    · rw [if_pos h186]
      obtain ⟨hm, hd⟩ := hrec1 h186
      simp only [Prod.mk.injEq]
      exact ⟨by omega, hm, hd⟩
    · rw [if_neg h186]
      obtain ⟨hm, hd⟩ := hrec2 (by omega)
      simp only [Prod.mk.injEq]
      exact ⟨by omega, hm, hd⟩

/-- In months 7..12 a valid day is at most 30. -/
lemma leapCorr (y m d : Nat) (hm12 : m ≤ 12)
    (h12 : m = 12 → (jIsLeap y = true → d ≤ 30) ∧ (jIsLeap y = false → d ≤ 29))
    (hmid : 7 ≤ m → m ≤ 11 → d ≤ 30) (hm7 : ¬ m < 7) : d ≤ 30 := by
  by_cases h12' : m = 12
  · obtain ⟨hdl, hdn⟩ := h12 h12'
    cases hlp : jIsLeap y with
    | true => exact hdl hlp
    | false => have := hdn hlp; omega
  · exact hmid (by omega) (by omega)

/-- Range of the day-number encoding over the validated year window. -/
lemma jEncDays_bounds (y m d : Nat) (hy1 : 1300 ≤ y) (hy2 : y ≤ 1450)
    (hv : jDateValid y m d = true) :
    117322 ≤ jEncDays y m d ∧ jEncDays y m d ≤ 172475 := by
  obtain ⟨_, hm1, hm12, hd1, hlt7, hmid, h12⟩ := jDateValid_linear y m d hv
  unfold jEncDays
  rw [if_pos (show y > 979 by omega)]
  dsimp only
  by_cases hm7 : m < 7
  · rw [if_pos hm7]
    have hd31 := hlt7 hm7
    omega
  · rw [if_neg hm7]
    have hd30 := leapCorr y m d hm12 h12 hmid hm7
    omega

/-- `decodeJ` at base 979 inverts `jEncDays` shifted by 79. -/
lemma decodeJ_inv (y m d : Nat) (hy1 : 1300 ≤ y) (hy2 : y ≤ 1450)
    (hv : jDateValid y m d = true) :
    decodeJ 979 (jEncDays y m d - 79) = (y, m, d) := by
  obtain ⟨_, hm1, hm12, hd1, hlt7, hmid, h12⟩ := jDateValid_linear y m d hv
  have hl := jIsLeap_cases y
  have harg : jEncDays y m d - 79 =
      12053 * ((y - 979) / 33) +
        (365 * ((y - 979) % 33) + ((y - 979) % 33 + 3) / 4 +
          ((if m < 7 then (m - 1) * 31 else (m - 7) * 30 + 186) + d - 1)) := by
    unfold jEncDays
    rw [if_pos (show y > 979 by omega)]
    dsimp only
    by_cases hm7 : m < 7
    · rw [if_pos hm7]
      omega
    · rw [if_neg hm7]
      omega
  rw [harg]
  refine decodeJ_core ((y - 979) / 33) ((y - 979) % 33)
    ((if m < 7 then (m - 1) * 31 else (m - 7) * 30 + 186) + d - 1) y m d
    (by omega) (by omega) ?_ ?_ ?_
  · by_cases hm7 : m < 7
    · rw [if_pos hm7]
      left
      have := hlt7 hm7
      omega
    · rw [if_neg hm7]
      have hd30 := leapCorr y m d hm12 h12 hmid hm7
      by_cases h12' : m = 12
      · by_cases hd' : d ≤ 29
        · left; omega
        · have hdd : d = 30 := by omega
          obtain ⟨hdl, hdn⟩ := h12 h12'
          have hlp : jIsLeap y = true := by
            cases hq : jIsLeap y with
            | true => rfl
            | false => have := hdn hq; omega
          have hys := hl.mp hlp
          right
          subst h12'
          subst hdd
          refine ⟨by omega, by omega, by omega⟩
      · left
        have := hmid (by omega) (by omega)
        omega
  · intro h186
    by_cases hm7 : m < 7
    · rw [if_pos hm7] at h186 ⊢
      have := hlt7 hm7
      constructor <;> omega
    · rw [if_neg hm7] at h186
      exfalso
      omega
  · intro h186
    by_cases hm7 : m < 7
    · rw [if_pos hm7] at h186
      have := hlt7 hm7
      exfalso
      omega
    · rw [if_neg hm7] at h186 ⊢
      have hd30 := leapCorr y m d hm12 h12 hmid hm7
      constructor <;> omega

/-- Converting a valid Jalali date to Gregorian and back recovers the
original components. -/
lemma jalali_roundtrip_num (y m d : Nat) (hy1 : 1300 ≤ y) (hy2 : y ≤ 1450)
    (hv : jDateValid y m d = true) :
    gregorian_to_jalali (jalali_to_gregorian y m d).1
      (jalali_to_gregorian y m d).2.1 (jalali_to_gregorian y m d).2.2 =
      (y, m, d) := by
  obtain ⟨hn1, hn2⟩ := jEncDays_bounds y m d hy1 hy2 hv
  have hok := decodeGYear_spec (jEncDays y m d) hn1 hn2
  unfold decodeGYearOK at hok
  obtain ⟨hgy1, hgy2, hneq, hts⟩ := hok
  obtain ⟨hfst, henc⟩ := monthFinish_encode
    (decodeGYear 1600 (jEncDays y m d)).1
    (decodeGYear 1600 (jEncDays y m d)).2 hgy1 hgy2 hts
  rw [jalali_to_gregorian_staged]
  rw [if_pos (show y > 979 by omega)]
  rw [gregorian_to_jalali_staged]
  rw [hfst] at henc
  rw [hfst]
  rw [if_pos (show (decodeGYear 1600 (jEncDays y m d)).1 > 1600 by omega)]
  rw [henc]
  rw [show gregF (decodeGYear 1600 (jEncDays y m d)).1 + 1 +
      (decodeGYear 1600 (jEncDays y m d)).2 = jEncDays y m d - 79 from
    by omega]
  exact decodeJ_inv y m d hy1 hy2 hv

/-- A digit character is not Python whitespace. -/
lemma isDigit_not_ws (c : Char) (h : c.isDigit = true) :
    pyWhitespace.contains c = false := by
  simp only [pyWhitespace, List.contains_cons, List.contains_nil,
    Bool.or_eq_false_iff, beq_eq_false_iff_ne, and_true]
  refine ⟨?_, ?_, ?_, ?_, ?_, ?_⟩ <;> (rintro rfl; exact absurd h (by decide))

/-- A digit character is not a dash. -/
lemma isDigit_not_dash (c : Char) (h : c.isDigit = true) : c ≠ '-' := by
  rintro rfl; exact absurd h (by decide)

/-- A digit character is not a slash. -/
lemma isDigit_not_slash (c : Char) (h : c.isDigit = true) : c ≠ '/' := by
  rintro rfl; exact absurd h (by decide)

/-- A digit character is not a dot. -/
lemma isDigit_not_dot (c : Char) (h : c.isDigit = true) : c ≠ '.' := by
  rintro rfl; exact absurd h (by decide)

/-- `str.strip()` is the identity on whitespace-free text. -/
lemma pyStripChars_id (cs : List Char)
    (h : ∀ c ∈ cs, pyWhitespace.contains c = false) : pyStripChars cs = cs := by
  unfold pyStripChars
  have h1 : cs.dropWhile (pyWhitespace.contains ·) = cs := by
    cases cs with
    | nil => rfl
    | cons a t =>
      rw [List.dropWhile_cons, if_neg]
      simpa using h a (by simp)
  rw [h1]
  have h2 : cs.reverse.dropWhile (pyWhitespace.contains ·) = cs.reverse := by
    cases hrev : cs.reverse with
    | nil => rfl
    | cons a t =>
      rw [List.dropWhile_cons, if_neg]
      have ha : a ∈ cs := by
        rw [← List.mem_reverse, hrev]; simp
      simpa using h a ha
  rw [h2, List.reverse_reverse]

/-- Splitting consumes a separator-free prefix up to the first separator. -/
lemma splitCharAux_sep (c : Char) (xs ys acc : List Char)
    (h : ∀ a ∈ xs, a ≠ c) :
    splitCharAux c (xs ++ c :: ys) acc =
      (acc.reverse ++ xs) :: splitCharAux c ys [] := by
  induction xs generalizing acc with
  | nil => simp [splitCharAux]
  | cons a t ih =>
    simp only [List.cons_append, splitCharAux, List.append_eq]
    rw [if_neg (h a (by simp))]
    rw [ih _ (fun b hb => h b (by simp [hb]))]
    simp

/-- Splitting a separator-free tail yields a single field. -/
lemma splitCharAux_last (c : Char) (xs acc : List Char)
    (h : ∀ a ∈ xs, a ≠ c) :
    splitCharAux c xs acc = [acc.reverse ++ xs] := by
  induction xs generalizing acc with
  | nil => simp [splitCharAux]
  | cons a t ih =>
    simp only [splitCharAux, List.append_eq]
    rw [if_neg (h a (by simp)), ih _ (fun b hb => h b (by simp [hb]))]
    simp

/-- The separator-normalising `replace` is the identity when neither
separator occurs. -/
lemma mapRepl_id (cs : List Char) (h : ∀ c ∈ cs, c ≠ '/' ∧ c ≠ '.') :
    (cs.map fun c => if c = '/' ∨ c = '.' then '-' else c) = cs := by
  induction cs with
  | nil => rfl
  | cons a t ih =>
    obtain ⟨h1, h2⟩ := h a (by simp)
    simp only [List.map_cons]
    rw [if_neg (by simp [h1, h2]), ih (fun b hb => h b (by simp [hb]))]

/-- Character decomposition of the canonical `YYYY-MM-DD` form. -/
lemma fmtJalali_data (y m d : Nat) :
    (fmtJalali y m d).data =
      (padZeros 4 y).data ++
        '-' :: ((padZeros 2 m).data ++ '-' :: (padZeros 2 d).data) := by
  unfold fmtJalali
  rw [String.data_append, String.data_append, String.data_append,
    String.data_append]
  simp [show ("-" : String).data = ['-'] from rfl]

/-- The canonical form splits into its three zero-padded fields. -/
lemma pySplitChar_fmtJalali (y m d : Nat)
    (hA : ∀ a ∈ (padZeros 4 y).data, a ≠ '-')
    (hB : ∀ a ∈ (padZeros 2 m).data, a ≠ '-')
    (hC : ∀ a ∈ (padZeros 2 d).data, a ≠ '-') :
    pySplitChar (fmtJalali y m d) '-' =
      [padZeros 4 y, padZeros 2 m, padZeros 2 d] := by
  unfold pySplitChar
  rw [fmtJalali_data]
  rw [splitCharAux_sep '-' _ _ [] hA]
  rw [splitCharAux_sep '-' _ _ [] hB]
  rw [splitCharAux_last '-' _ [] hC]
  simp

set_option maxRecDepth 4000 in
/-- The zero-padded year field of the validated window is all digits. -/
lemma pad4_digits : ∀ i, i < 151 →
    (padZeros 4 (1300 + i)).data.all Char.isDigit = true := by
  decide

/-- The zero-padded month/day fields are all digits. -/
lemma pad2_digits : ∀ i, i < 31 →
    (padZeros 2 (1 + i)).data.all Char.isDigit = true := by
  decide

set_option maxRecDepth 4000 in
/-- `int(...)` recovers the year from its zero-padded field. -/
lemma pad4_parse : ∀ i, i < 151 →
    pyParseInt (padZeros 4 (1300 + i)) = some ((1300 + i : Nat) : Int) := by
  decide

/-- `int(...)` recovers a month/day from its zero-padded field. -/
lemma pad2_parse : ∀ i, i < 31 →
    pyParseInt (padZeros 2 (1 + i)) = some ((1 + i : Nat) : Int) := by
  decide

/-- All characters of the three zero-padded fields are digits. -/
lemma padDigits_facts (y m d : Nat) (hy1 : 1300 ≤ y) (hy2 : y ≤ 1450)
    (hm1 : 1 ≤ m) (hm2 : m ≤ 12) (hd1 : 1 ≤ d) (hd2 : d ≤ 31) :
    (∀ c ∈ (padZeros 4 y).data, c.isDigit = true) ∧
    (∀ c ∈ (padZeros 2 m).data, c.isDigit = true) ∧
    (∀ c ∈ (padZeros 2 d).data, c.isDigit = true) := by
  refine ⟨?_, ?_, ?_⟩
  · have h := pad4_digits (y - 1300) (by omega)
    rw [show 1300 + (y - 1300) = y from by omega] at h
    exact fun c hc => List.all_eq_true.mp h c hc
  · have h := pad2_digits (m - 1) (by omega)
    rw [show 1 + (m - 1) = m from by omega] at h
    exact fun c hc => List.all_eq_true.mp h c hc
  · have h := pad2_digits (d - 1) (by omega)
    rw [show 1 + (d - 1) = d from by omega] at h
    exact fun c hc => List.all_eq_true.mp h c hc

/-- On the canonical zero-padded form, `validate_jalali_date` succeeds and
returns its input unchanged. -/
lemma validate_jalali_canon (y m d : Nat) (hy1 : 1300 ≤ y) (hy2 : y ≤ 1450)
    (hv : jDateValid y m d = true) :
    validate_jalali_date (fmtJalali y m d) "date" = .ok (fmtJalali y m d) := by
  obtain ⟨_, hm1, hm2, hd1, hlt7, hmid, h12⟩ := jDateValid_linear y m d hv
  have hd31 : d ≤ 31 := by
    by_cases hm7 : m < 7
    · exact hlt7 hm7
    · have := leapCorr y m d hm2 h12 hmid hm7
      omega
  obtain ⟨hA, hB, hC⟩ := padDigits_facts y m d hy1 hy2 hm1 hm2 hd1 hd31
  have hfull : ∀ c ∈ (fmtJalali y m d).data, c.isDigit = true ∨ c = '-' := by
    intro c hc
    rw [fmtJalali_data] at hc
    simp only [List.mem_append, List.mem_cons] at hc
    rcases hc with h | h
    · exact .inl (hA c h)
    · rcases h with h | h
      · exact .inr h
      · rcases h with h | h
        · exact .inl (hB c h)
        · rcases h with h | h
          · exact .inr h
          · exact .inl (hC c h)
  have hne : fmtJalali y m d ≠ "" := by
    intro heq
    have hdd := congrArg String.data heq
    rw [fmtJalali_data] at hdd
    simp at hdd
  have hnws : ∀ c ∈ (fmtJalali y m d).data, pyWhitespace.contains c = false := by
    intro c hc
    rcases hfull c hc with hdg | hdash
    · exact isDigit_not_ws c hdg
    · subst hdash; decide
  have hstrip : pyStrip (fmtJalali y m d) = fmtJalali y m d := by
    unfold pyStrip
    exact congrArg String.mk (pyStripChars_id _ hnws)
  have hmap : (⟨(fmtJalali y m d).data.map
      fun c => if c = '/' ∨ c = '.' then '-' else c⟩ : String) =
      fmtJalali y m d := by
    refine congrArg String.mk (mapRepl_id _ ?_)
    intro c hc
    rcases hfull c hc with hdg | hdash
    · exact ⟨isDigit_not_slash c hdg, isDigit_not_dot c hdg⟩
    · subst hdash; exact ⟨by decide, by decide⟩
  have hsplit := pySplitChar_fmtJalali y m d
    (fun a ha => isDigit_not_dash a (hA a ha))
    (fun a ha => isDigit_not_dash a (hB a ha))
    (fun a ha => isDigit_not_dash a (hC a ha))
  have hpy : pyParseInt (padZeros 4 y) = some (y : Int) := by
    have h := pad4_parse (y - 1300) (by omega)
    rw [show 1300 + (y - 1300) = y from by omega] at h
    exact h
  have hpm : pyParseInt (padZeros 2 m) = some (m : Int) := by
    have h := pad2_parse (m - 1) (by omega)
    rw [show 1 + (m - 1) = m from by omega] at h
    exact h
  have hpd : pyParseInt (padZeros 2 d) = some (d : Int) := by
    have h := pad2_parse (d - 1) (by omega)
    rw [show 1 + (d - 1) = d from by omega] at h
    exact h
  have hjv : jDateValidInt (y : Int) (m : Int) (d : Int) = true := by
    unfold jDateValidInt
    simp only [Int.toNat_natCast]
    rw [hv]
    simp only [Bool.and_true, Bool.and_eq_true, decide_eq_true_eq]
    omega
  unfold validate_jalali_date
  rw [if_neg hne]
  dsimp only
  rw [hstrip, hmap, hsplit]
  rw [if_neg (by simp)]
  simp only [List.getD_cons_zero, List.getD_cons_succ]
  rw [hpy, hpm, hpd]
  dsimp only
  rw [if_neg (show ¬((y : Int) < 1300 ∨ (y : Int) > 1450) from by omega)]
  rw [if_pos hjv]
  simp only [Int.toNat_natCast]

/-- The Jalali→Gregorian converter on the canonical form applies the
`jdatetime` arithmetic to the three parsed components. -/
lemma convert_jalali_canon (y m d : Nat) (hy1 : 1300 ≤ y) (hy2 : y ≤ 1450)
    (hv : jDateValid y m d = true) :
    convert_jalali_to_gregorian (fmtJalali y m d) =
      .ok ⟨(jalali_to_gregorian y m d).1, (jalali_to_gregorian y m d).2.1,
        (jalali_to_gregorian y m d).2.2⟩ := by
  obtain ⟨_, hm1, hm2, hd1, hlt7, hmid, h12⟩ := jDateValid_linear y m d hv
  have hd31 : d ≤ 31 := by
    by_cases hm7 : m < 7
    · exact hlt7 hm7
    · have := leapCorr y m d hm2 h12 hmid hm7
      omega
  obtain ⟨hA, hB, hC⟩ := padDigits_facts y m d hy1 hy2 hm1 hm2 hd1 hd31
  have hsplit := pySplitChar_fmtJalali y m d
    (fun a ha => isDigit_not_dash a (hA a ha))
    (fun a ha => isDigit_not_dash a (hB a ha))
    (fun a ha => isDigit_not_dash a (hC a ha))
  have hpy : pyParseInt (padZeros 4 y) = some (y : Int) := by
    have h := pad4_parse (y - 1300) (by omega)
    rw [show 1300 + (y - 1300) = y from by omega] at h
    exact h
  have hpm : pyParseInt (padZeros 2 m) = some (m : Int) := by
    have h := pad2_parse (m - 1) (by omega)
    rw [show 1 + (m - 1) = m from by omega] at h
    exact h
  have hpd : pyParseInt (padZeros 2 d) = some (d : Int) := by
    have h := pad2_parse (d - 1) (by omega)
    rw [show 1 + (d - 1) = d from by omega] at h
    exact h
  unfold convert_jalali_to_gregorian
  rw [validate_jalali_canon y m d hy1 hy2 hv]
  dsimp only
  rw [hsplit]
  simp only [List.getD_cons_zero, List.getD_cons_succ]
  rw [hpy, hpm, hpd]
  dsimp only
  simp only [Int.toNat_natCast]

/-- C4: for every valid local (Jalali) date whose year lies in
[1300, 1450], converting it to Gregorian with
`convert_jalali_to_gregorian` and converting the result back with
`convert_gregorian_to_jalali` yields the original date exactly. -/
theorem jalali_gregorian_roundtrip (y m d : Nat) (hy1 : 1300 ≤ y)
    (hy2 : y ≤ 1450) (hv : jDateValid y m d = true) :
    (convert_jalali_to_gregorian (fmtJalali y m d)).map
      convert_gregorian_to_jalali = .ok (fmtJalali y m d) := by
  rw [convert_jalali_canon y m d hy1 hy2 hv]
  simp only [Except.map]
  unfold convert_gregorian_to_jalali
  dsimp only
  rw [jalali_roundtrip_num y m d hy1 hy2 hv]

/-- Concrete instance of the round-trip property at 1403-01-01. -/
theorem jalali_gregorian_roundtrip_witness :
    1300 ≤ 1403 ∧ 1403 ≤ 1450 ∧ jDateValid 1403 1 1 = true ∧
    (convert_jalali_to_gregorian (fmtJalali 1403 1 1)).map
      convert_gregorian_to_jalali = .ok (fmtJalali 1403 1 1) :=
  ⟨by omega, by omega, by decide,
    jalali_gregorian_roundtrip 1403 1 1 (by omega) (by omega) (by decide)⟩

/-! ## Claim theorems for the parser, transport and validation layers -/

/-- Truncation of a natural-number rational is the number itself. -/
lemma ratTrunc_natCast (n : Nat) : ratTrunc ((n : ℚ)) = (n : Int) := by
  unfold ratTrunc
  rw [Rat.num_natCast, Rat.den_natCast]
  exact Int.tdiv_one _

set_option maxRecDepth 4000 in
/-- C1: the price-history parser keeps the 8-digit date's own digits as
the local date: the scenario-B text parses to one record whose date is
`2024-03-20` (the digits re-read as a Jalali date), with the documented
field assignment. -/
theorem parse_price_uses_raw_digits_as_local :
    parse_price_response "20240320,105,95,100,101,50,1000,100000,99" =
      [{ date := "2024-03-20", openPrice := some 99, high := some 105,
         low := some 95, close := some 100, last := some 101,
         count := some 50, volume := some 1000, value := some 100000 }] := by
  have h : parse_price_response "20240320,105,95,100,101,50,1000,100000,99" =
      [{ date := "2024-03-20",
         openPrice := some (1 * ((99 : Nat) : ℚ)),
         high := some (1 * ((105 : Nat) : ℚ)),
         low := some (1 * ((95 : Nat) : ℚ)),
         close := some (1 * ((100 : Nat) : ℚ)),
         last := some (1 * ((101 : Nat) : ℚ)),
         count := some (ratTrunc (1 * ((50 : Nat) : ℚ))),
         volume := some (ratTrunc (1 * ((1000 : Nat) : ℚ))),
         value := some (ratTrunc (1 * ((100000 : Nat) : ℚ))) }] := rfl
  rw [h]
  simp only [one_mul, ratTrunc_natCast]
  norm_num

/-- Counterexample to the spec's scenario-B date: the parsed record's date
is not the converted local date `1402-12-30`. -/
theorem parse_price_no_calendar_conversion :
    (parse_price_response "20240320,105,95,100,101,50,1000,100000,99").map
      PriceRecord.date ≠ ["1402-12-30"] := by
  decide

/-- `retryRun` with an operation that fails every attempt with a
retryable exception: the error surfaces only after all the fuel is
spent, with `fuel + 1` attempts executed. -/
lemma retryRun_all_fail {α : Type} (rt : PyErr → Bool)
    (f : Nat → Except PyErr α) (e : PyErr) (hf : ∀ a, f a = .error e)
    (hr : rt e = true) :
    ∀ fuel attempt, retryRun rt f attempt fuel = (.error e, attempt + fuel + 1) := by
  intro fuel
  induction fuel with
  | zero =>
    intro a
    unfold retryRun
    rw [hf a]
    dsimp only
    rw [if_pos hr]
  | succ n ih =>
    intro a
    unfold retryRun
    rw [hf a]
    dsimp only
    rw [if_pos hr]
    rw [ih (a + 1)]
    rw [show a + 1 + n + 1 = a + (n + 1) + 1 from by omega]

/-- C2: the transport's retry policy (default `exceptions=(Exception,)`)
retries a non-2xx, non-429 HTTP response like every other failure: the
`TSETMCAPIError` surfaces only after all four attempts. -/
theorem make_request_retries_api_error (t s : Nat) (r : String)
    (h429 : s ≠ 429) (h400 : 400 ≤ s) :
    make_request t (fun _ => .response s r) =
      (.error (.apiError ("HTTP " ++ toString s ++ ": " ++ r)
        (some (Int.ofNat s))), 4) := by
  unfold make_request retry_on_failure
  have hf : ∀ a : Nat,
      make_request_once t ((fun _ => HttpOutcome.response s r) a) =
        .error (.apiError ("HTTP " ++ toString s ++ ": " ++ r)
          (some (Int.ofNat s))) := by
    intro a
    unfold make_request_once
    dsimp only
    rw [if_neg h429, if_pos (show ¬ s < 400 from by omega)]
  exact retryRun_all_fail (fun _ => true) _ _ hf rfl 3 0

/-- Concrete instance: a constant 500 response is retried and surfaces
after four attempts. -/
theorem make_request_retries_api_error_witness :
    (500 : Nat) ≠ 429 ∧ 400 ≤ 500 ∧
    make_request 30 (fun _ => .response 500 "Server Error") =
      (.error (.apiError ("HTTP " ++ toString (500 : Nat) ++ ": " ++
        "Server Error") (some (Int.ofNat 500))), 4) :=
  ⟨by decide, by decide,
    make_request_retries_api_error 30 500 "Server Error" (by decide) (by decide)⟩

/-- Counterexample to the spec's no-retry policy: the ApiError of a 500
response is not surfaced after the first attempt. -/
theorem make_request_api_error_not_first_occurrence :
    (make_request 30 (fun _ => .response 500 "Server Error")).2 ≠ 1 := by
  decide

/-- C9: an HTTP 429 response raises the distinct rate-limit error (not the
generic `TSETMCAPIError`), and its `retry_after` field is `None`. -/
theorem rate_limit_429_distinct (t : Nat) (r : String) :
    make_request_once t (.response 429 r) =
      .error (.rateLimitError "Rate limit exceeded" none) := by
  unfold make_request_once
  dsimp only
  rw [if_pos rfl]

/-- Counterexample to the spec's default retry hint: the rate-limit error
raised for a concrete 429 response carries no hint value at all. -/
theorem rate_limit_429_no_default_hint :
    (match make_request_once 30 (.response 429 "Too Many Requests") with
      | .error (.rateLimitError _ ra) => ra
      | _ => some 0) = none := by
  decide

/-- C3: when both dates validate and the normalized start compares
greater than the normalized end (integer-part list comparison), a history
request fails with the range `TSETMCValidationError` no matter what the
network body would return — the fetch never influences the outcome. -/
theorem get_history_range_precheck
    (f g : Unit → Except PyErr (List PriceRecord))
    (stock s e ns ne : String)
    (hstock : validate_stock_name stock = .ok ())
    (hs : validate_jalali_date s "date" = .ok ns)
    (he : validate_jalali_date e "date" = .ok ne)
    (hgt : pyListIntGt
        ((pySplitChar ns '-').map fun x => (pyParseInt x).getD 0)
        ((pySplitChar ne '-').map fun x => (pyParseInt x).getD 0) = true) :
    get_history f stock s e false =
      .error (.validationError "Start date must be before end date"
        none none) ∧
    get_history f stock s e false = get_history g stock s e false := by
  have hrange : validate_date_range s e =
      .error (.validationError "Start date must be before end date"
        none none) := by
    unfold validate_date_range
    rw [hs, he]
    dsimp only
    rw [if_pos hgt]
  have key : ∀ h : Unit → Except PyErr (List PriceRecord),
      get_history h stock s e false =
        .error (.validationError "Start date must be before end date"
          none none) := by
    intro h
    unfold get_history
    conv_lhs => rw [hstock, hrange]
    rfl
  exact ⟨key f, (key f).trans (key g).symm⟩

/-- Concrete instance: a slash-separated start after a dash-separated end
is rejected on the normalized values. -/
theorem get_history_range_precheck_witness :
    validate_stock_name "stock" = .ok () ∧
    validate_jalali_date "1403/01/02" "date" = .ok "1403-01-02" ∧
    validate_jalali_date "1403-01-01" "date" = .ok "1403-01-01" ∧
    pyListIntGt
      ((pySplitChar "1403-01-02" '-').map fun x => (pyParseInt x).getD 0)
      ((pySplitChar "1403-01-01" '-').map fun x => (pyParseInt x).getD 0) =
      true ∧
    get_history (fun _ => .ok []) "stock" "1403/01/02" "1403-01-01" false =
      .error (.validationError "Start date must be before end date"
        none none) :=
  ⟨by decide, by decide, by decide, by decide,
    (get_history_range_precheck (fun _ => .ok [])
      (fun _ => .error (.networkError "down")) "stock" "1403/01/02"
      "1403-01-01" "1403-01-02" "1403-01-01" (by decide) (by decide)
      (by decide) (by decide)).1⟩

/-- Dropping the empty frames before concatenation does not change the
concatenation. -/
lemma flatten_filter_ne_nil {α : Type} [DecidableEq α]
    (l : List (List α)) : (l.filter (· ≠ [])).flatten = l.flatten := by
  induction l with
  | nil => rfl
  | cons a t ih =>
    rw [List.filter_cons]
    by_cases ha : a = []
    · rw [if_neg (by simp [ha])]
      rw [ih, ha]
      rfl
    · rw [if_pos (by simp [ha])]
      rw [List.flatten_cons, List.flatten_cons, ih]

/-- Every row produced by the per-day fetch carries the queried day. -/
lemma fetch_day_jdate (net : String → Except PyErr (List RawTrade))
    (j : String) : ∀ t ∈ fetch_day_trades_sync net j, t.jdate = j := by
  intro t ht
  unfold fetch_day_trades_sync at ht
  rcases hg : jalaliStrToGreg8 j with _ | g
  · rw [hg] at ht
    simp at ht
  · rw [hg] at ht
    dsimp only at ht
    rcases hn : net g with e | raws
    · rw [hn] at ht
      simp at ht
    · rw [hn] at ht
      dsimp only at ht
      by_cases hr : raws = []
      · rw [if_pos hr] at ht
        simp at ht
      · rw [if_neg hr] at ht
        simp only [List.mem_filterMap] at ht
        obtain ⟨r, hrm, hfr⟩ := ht
        rcases hv : r.volume with _ | v
        · rw [hv] at hfr
          simp at hfr
        · rw [hv] at hfr
          rcases hp : r.price with _ | p
          · rw [hp] at hfr
            simp at hfr
          · rw [hp] at hfr
            dsimp only at hfr
            cases hfr
            rfl

/-- C5: a day whose network call fails contributes an empty frame; the
capped loop returns exactly the concatenation of the per-day frames of the
first `min N 5` days, and escalates to `TSETMCDataError` exactly when that
concatenation is empty (in particular when every processed day failed). -/
theorem intraday_failure_handling
    (net : String → Except PyErr (List RawTrade)) (ds : List String)
    (hne : ds ≠ []) :
    (∀ j g e, jalaliStrToGreg8 j = some g → net g = .error e →
      fetch_day_trades_sync net j = []) ∧
    (((ds.take (min ds.length 5)).map (fetch_day_trades_sync net)).flatten ≠
        [] →
      intraday_process_days net ds =
        .ok ((ds.take (min ds.length 5)).map
          (fetch_day_trades_sync net)).flatten) ∧
    (((ds.take (min ds.length 5)).map (fetch_day_trades_sync net)).flatten =
        [] →
      intraday_process_days net ds =
        .error (.dataError "No intraday trade data found.")) := by
  refine ⟨?_, ?_, ?_⟩
  · intro j g e hg hn
    unfold fetch_day_trades_sync
    rw [hg]
    dsimp only
    rw [hn]
  · intro hflat
    unfold intraday_process_days
    rw [if_neg (show ¬ ds.isEmpty = true by
      rw [List.isEmpty_iff]; exact hne)]
    dsimp only
    rw [flatten_filter_ne_nil]
    rw [if_neg (show ¬ (((ds.take (min ds.length 5)).map
        (fetch_day_trades_sync net)).flatten.isEmpty = true) by
      rw [List.isEmpty_iff]; exact hflat)]
  · intro hflat
    unfold intraday_process_days
    rw [if_neg (show ¬ ds.isEmpty = true by
      rw [List.isEmpty_iff]; exact hne)]
    dsimp only
    rw [flatten_filter_ne_nil]
    rw [if_pos (show (((ds.take (min ds.length 5)).map
        (fetch_day_trades_sync net)).flatten.isEmpty = true) by
      rw [List.isEmpty_iff]; exact hflat)]

/-- Network oracle of the C5 instances: the eight-digit Gregorian key of
1403-01-02 (and of 1403-01-03 in the six-day instance, 2024-03-22) fails;
every other day returns one raw trade. -/
def netC5 : String → Except PyErr (List RawTrade) := fun g =>
  if g = "20240321" then .error (.networkError "connection refused")
  else .ok [⟨90000, some 10, some 500, 1⟩]

/-- Network oracle of the six-day counterexample: only the key of
1403-01-03 (2024-03-22) fails. -/
def netC5x : String → Except PyErr (List RawTrade) := fun g =>
  if g = "20240322" then .error (.networkError "connection refused")
  else .ok [⟨90000, some 10, some 500, 1⟩]

/-- Concrete instance: of two trading days the second one's network call
fails, and the result holds exactly the first day's records. -/
theorem intraday_failure_handling_witness :
    (["1403-01-01", "1403-01-02"] : List String) ≠ [] ∧
    intraday_process_days netC5 ["1403-01-01", "1403-01-02"] =
      .ok [⟨"1403-01-01", "09:00:00", 10, 500⟩] :=
  ⟨by decide,
    ((intraday_failure_handling netC5 ["1403-01-01", "1403-01-02"]
      (by decide)).2.1 (by decide)).trans (by decide)⟩

/-- The six trading days of the cap counterexamples. -/
def daysC5 : List String :=
  ["1403-01-01", "1403-01-02", "1403-01-03", "1403-01-04", "1403-01-05",
   "1403-01-08"]

/-- Counterexample to the spec's N−1 recovery: with six trading days of
which only 1403-01-03 fails, the sixth day would fetch a record but is
absent from the result — only four of the five other days survive. -/
theorem intraday_cap_breaks_nminus1 :
    daysC5.length = 6 ∧
    fetch_day_trades_sync netC5x "1403-01-08" =
      [⟨"1403-01-08", "09:00:00", 10, 500⟩] ∧
    intraday_process_days netC5x daysC5 =
      .ok [⟨"1403-01-01", "09:00:00", 10, 500⟩,
           ⟨"1403-01-02", "09:00:00", 10, 500⟩,
           ⟨"1403-01-04", "09:00:00", 10, 500⟩,
           ⟨"1403-01-05", "09:00:00", 10, 500⟩] := by
  refine ⟨by decide, by decide, by decide⟩

/-- C6: with more than five trading days the loop processes exactly the
first five list elements — the list's head in upstream response order —
and every returned row belongs to one of those five days. -/
theorem intraday_cap_keeps_head
    (net : String → Except PyErr (List RawTrade)) (ds : List String)
    (hlen : 5 < ds.length) :
    intraday_process_days net ds = intraday_process_days net (ds.take 5) ∧
    (∀ df, intraday_process_days net ds = .ok df →
      ∀ t ∈ df, t.jdate ∈ ds.take 5) := by
  have h5 : min ds.length 5 = 5 := by omega
  have h5' : min (ds.take 5).length 5 = 5 := by
    rw [List.length_take]
    omega
  have hA : ¬ ds.isEmpty = true := by
    rw [List.isEmpty_iff]
    intro h
    rw [h] at hlen
    simp at hlen
  have hB : ¬ (ds.take 5).isEmpty = true := by
    rw [List.isEmpty_iff]
    intro h
    have h2 := congrArg List.length h
    rw [List.length_take] at h2
    simp only [List.length_nil] at h2
    omega
  have e1 : ds.take (min ds.length 5) =
      (ds.take 5).take (min (ds.take 5).length 5) := by
    rw [h5, h5', List.take_take, min_self]
  constructor
  · unfold intraday_process_days
    rw [if_neg hA, if_neg hB]
    dsimp only
    rw [e1]
  · intro df h t ht
    unfold intraday_process_days at h
    rw [if_neg hA] at h
    dsimp only at h
    split at h
    · exact absurd h (by simp)
    · cases h
      rw [flatten_filter_ne_nil] at ht
      simp only [List.mem_flatten, List.mem_map] at ht
      obtain ⟨l, ⟨d, hd, hfd⟩, htl⟩ := ht
      rw [← h5]
      have := fetch_day_jdate net d t (by rw [hfd]; exact htl)
      rw [this]
      exact hd

/-- Constantly succeeding network oracle for the C6 instances. -/
def netOkC6 : String → Except PyErr (List RawTrade) := fun _ =>
  .ok [⟨90000, some 10, some 500, 1⟩]

/-- Concrete instance: six trading days process like their first five. -/
theorem intraday_cap_keeps_head_witness :
    5 < daysC5.length ∧
    intraday_process_days netOkC6 daysC5 =
      intraday_process_days netOkC6 (daysC5.take 5) :=
  ⟨by decide, (intraday_cap_keeps_head netOkC6 daysC5 (by decide)).1⟩

/-- The upstream price-history text of the C6 counterexample: most recent
day first, as the instrument feed returns it. -/
def histTextC6 : String :=
  "20240327@1;20240326@1;20240325@1;20240324@1;20240321@1;20240320@1"

/-- Counterexample to the spec's tail semantics: the trading-day list
arrives most-recent-first, so the cap keeps the five most recent days and
drops the oldest day 1403-01-01 — not the most recent days. -/
theorem intraday_cap_drops_oldest :
    get_trading_days histTextC6 "1403-01-01" "1403-01-10" =
      .ok ["1403-01-08", "1403-01-07", "1403-01-06", "1403-01-05",
           "1403-01-02", "1403-01-01"] ∧
    intraday_process_days netOkC6
      ["1403-01-08", "1403-01-07", "1403-01-06", "1403-01-05",
       "1403-01-02", "1403-01-01"] =
      .ok [⟨"1403-01-08", "09:00:00", 10, 500⟩,
           ⟨"1403-01-07", "09:00:00", 10, 500⟩,
           ⟨"1403-01-06", "09:00:00", 10, 500⟩,
           ⟨"1403-01-05", "09:00:00", 10, 500⟩,
           ⟨"1403-01-02", "09:00:00", 10, 500⟩] := by
  refine ⟨by decide, by decide⟩

/-- Every decoded adjusted-close row's date comes from the feed. -/
lemma decodeAdjRows_dates (l : List AdjEntry)
    (r : List (GDate × String × ℚ)) (h : decodeAdjRows l = .ok r) :
    ∀ p ∈ r, p.1 ∈ adjFeedDates l := by
  induction l generalizing r with
  | nil =>
    unfold decodeAdjRows at h
    cases h
    intro p hp
    simp at hp
  | cons e es ih =>
    unfold decodeAdjRows at h
    rcases hdt : toDatetime8 (toString e.dEven) with _ | g
    · rw [hdt] at h
      simp at h
    · rw [hdt] at h
      dsimp only at h
      rcases hrest : decodeAdjRows es with err | rest
      · rw [hrest] at h
        simp at h
      · rw [hrest] at h
        dsimp only at h
        cases h
        intro p hp
        simp only [List.mem_cons] at hp
        unfold adjFeedDates
        rw [List.filterMap_cons, hdt]
        dsimp only
        rcases hp with hp | hp
        · rw [hp]
          exact List.mem_cons_self _ _
        · exact List.mem_cons_of_mem _ (ih rest hrest p hp)

/-- C7: the index-history join has inner-join semantics — every row of
the joined result carries a date present in the OHLC feed and in the
adjusted-close feed, so a day present in exactly one feed produces no
row. -/
theorem index_join_requires_both (ohlcText : String)
    (adjB2 : List AdjEntry) (rows : List IndexRow)
    (h : get_index_history_joined ohlcText adjB2 = .ok rows) :
    ∀ r ∈ rows, r.date ∈ ohlcFeedDates ohlcText ∧
      r.date ∈ adjFeedDates adjB2 := by
  unfold get_index_history_joined at h
  rcases hp : parseOhlcRows ((pySplitChar ohlcText ';').map (pySplitChar · ','))
    with e | ohlc
  · rw [hp] at h
    simp at h
  · rw [hp] at h
    dsimp only at h
    rcases ha : decodeAdjRows adjB2 with e | adj
    · rw [ha] at h
      simp at h
    · rw [ha] at h
      dsimp only at h
      cases h
      intro r hr
      unfold mergeIndexRows at hr
      simp only [List.mem_flatMap, List.mem_map, List.mem_filter] at hr
      obtain ⟨o, ho, a, ⟨haa, hdate⟩, hra⟩ := hr
      have hrd : r.date = o.date := by
        rw [← hra]
      constructor
      · rw [hrd]
        unfold ohlcFeedDates
        rw [hp]
        exact List.mem_map.mpr ⟨o, ho, rfl⟩
      · have hda : a.1 = o.date := of_decide_eq_true hdate
        rw [hrd, ← hda]
        exact decodeAdjRows_dates adjB2 adj ha a haa

set_option maxRecDepth 4000 in
/-- Concrete instance: two OHLC days joined with one adjusted-close day
yield one row, whose date sits in both feeds. -/
theorem index_join_requires_both_witness :
    get_index_history_joined "20240320,1,2,3,4,5,6;20240321,1,2,3,4,5,6"
      [⟨20240320, 7⟩] =
      .ok [⟨⟨2024, 3, 20⟩, "1403-01-01", pyParseFloat "1", pyParseFloat "2",
        pyParseFloat "3", pyParseFloat "4", pyParseFloat "5", 7⟩] ∧
    (∀ r ∈ [(⟨⟨2024, 3, 20⟩, "1403-01-01", pyParseFloat "1", pyParseFloat "2",
        pyParseFloat "3", pyParseFloat "4", pyParseFloat "5", 7⟩ : IndexRow)],
      r.date ∈ ohlcFeedDates "20240320,1,2,3,4,5,6;20240321,1,2,3,4,5,6" ∧
      r.date ∈ adjFeedDates [⟨20240320, 7⟩]) :=
  ⟨rfl, index_join_requires_both "20240320,1,2,3,4,5,6;20240321,1,2,3,4,5,6"
    [⟨20240320, 7⟩] _ rfl⟩

/-- C8: a line with fewer than nine comma fields yields no record; every
line that parses to a record contributes it to the response, and within a
kept record each numeric field is the safe conversion of its comma field —
`none` (not zero) when the text fails numeric parsing. -/
theorem parse_price_row_semantics (text : String) :
    ∀ line ∈ pySplitChar (pyStrip text) '\n',
      ((pySplitChar line ',').length < 9 → parse_price_line line = none) ∧
      (∀ rec, parse_price_line line = some rec →
        rec ∈ parse_price_response text ∧
        rec.high = safe_float_conversion ((pySplitChar line ',').getD 1 "") ∧
        rec.low = safe_float_conversion ((pySplitChar line ',').getD 2 "") ∧
        rec.close = safe_float_conversion ((pySplitChar line ',').getD 3 "") ∧
        rec.last = safe_float_conversion ((pySplitChar line ',').getD 4 "") ∧
        rec.count = safe_int_conversion ((pySplitChar line ',').getD 5 "") ∧
        rec.volume = safe_int_conversion ((pySplitChar line ',').getD 6 "") ∧
        rec.value = safe_int_conversion ((pySplitChar line ',').getD 7 "") ∧
        rec.openPrice =
          safe_float_conversion ((pySplitChar line ',').getD 8 "")) := by
  intro line hline
  constructor
  · intro hlt
    unfold parse_price_line
    by_cases h1 : pyStrip line = ""
    · rw [if_pos h1]
    · rw [if_neg h1]
      dsimp only
      rw [if_neg (by omega)]
  · intro rec hrec
    refine ⟨?_, ?_⟩
    · unfold parse_price_response
      exact List.mem_filterMap.mpr ⟨line, hline, hrec⟩
    · unfold parse_price_line at hrec
      by_cases h1 : pyStrip line = ""
      · rw [if_pos h1] at hrec
        exact absurd hrec (by simp)
      · rw [if_neg h1] at hrec
        dsimp only at hrec
        by_cases h2 : 9 ≤ (pySplitChar line ',').length
        · rw [if_pos h2] at hrec
          by_cases h3 : ((pySplitChar line ',').getD 0 "").length = 8
          · rw [if_pos h3] at hrec
            split at hrec
            · split at hrec
              · cases hrec
                exact ⟨rfl, rfl, rfl, rfl, rfl, rfl, rfl, rfl⟩
              · exact absurd hrec (by simp)
            · exact absurd hrec (by simp)
          · rw [if_neg h3] at hrec
            exact absurd hrec (by simp)
        · rw [if_neg h2] at hrec
          exact absurd hrec (by simp)

/-- The record the malformed-field line of the C8 instance produces: the
`abc` high field becomes an absent value. -/
def recAbc : PriceRecord :=
  ⟨"2024-03-20", safe_float_conversion "99", safe_float_conversion "abc",
   safe_float_conversion "95", safe_float_conversion "100",
   safe_float_conversion "101", safe_int_conversion "50",
   safe_int_conversion "1000", safe_int_conversion "100000"⟩

set_option maxRecDepth 4000 in
/-- Concrete instance: the three-field row is dropped, the nine-field row
with the unparsable `abc` field is kept, and that field is `none`. -/
theorem parse_price_row_semantics_witness :
    parse_price_line "1,2,3" = none ∧
    recAbc ∈ parse_price_response
      "20240320,abc,95,100,101,50,1000,100000,99\n1,2,3" ∧
    recAbc.high = safe_float_conversion
      ((pySplitChar "20240320,abc,95,100,101,50,1000,100000,99" ',').getD 1
        "") ∧
    safe_float_conversion "abc" = none :=
  ⟨(parse_price_row_semantics
      "20240320,abc,95,100,101,50,1000,100000,99\n1,2,3" "1,2,3"
      (by decide)).1 (by decide),
   ((parse_price_row_semantics
      "20240320,abc,95,100,101,50,1000,100000,99\n1,2,3"
      "20240320,abc,95,100,101,50,1000,100000,99" (by decide)).2 recAbc
      rfl).1,
   ((parse_price_row_semantics
      "20240320,abc,95,100,101,50,1000,100000,99\n1,2,3"
      "20240320,abc,95,100,101,50,1000,100000,99" (by decide)).2 recAbc
      rfl).2.1,
   by decide⟩
